import Mathlib

/-!
# Verification of the ASA-Automates agent core

A shallow embedding, in Lean 4, of the parts of the ASA-Automates
repository (a grid-world parcel-delivery agent) that its specification
makes claims about:

* the A* pathfinder `findPath` (`src/utils/utils.js`, and the private
  copy `GoTo.#findPath` in `src/planner/plans/go-to.js`);
* the intention-queue priority sort `Agent.sortIntentionQueue`
  (`src/agent/agent.js`);
* parcel expiry (`src/belief/map-entities/parcel.js`) and
  `WorldMap.updateParcels` (`src/belief/world-map.js`);
* the `onMap` tile-code handler (`src/belief/world-state.js`);
* the `GoDropOff` and `GoTo` plan executors
  (`src/planner/plans/go-drop-off.js`, `src/planner/plans/go-to.js`);
* the companion-position / hand-to-hand election handler and the agent
  loop (`src/agent/agent.js`);
* the Deliver-mode option generator
  (`src/planner/options-generation.js`).

JavaScript `while` loops and recursions are embedded with an explicit
fuel parameter; exhausting the fuel yields the same result as the
"search failed" outcome (`null`).  All theorems proved below either do
not depend on the fuel at all, or only need the fuel to be positive.

Numbers are embedded as `Int` (tile coordinates), `ℕ` (counters) or `ℚ`
(the float arithmetic of parcel expiry, which is exact on the values
involved).  `Infinity` scores are embedded as `⊤ : ℕ∞`.
-/

/-! ## Positions and map snapshots -/

/-- A tile coordinate, as the `{x, y}` records used throughout the source. -/
structure Pos where
  x : Int
  y : Int
deriving DecidableEq, Repr

/-- The Manhattan-distance heuristic
`(a, b) => Math.abs(a.x - b.x) + Math.abs(a.y - b.y)`
(`src/utils/utils.js:35`). -/
def manhattan (a b : Pos) : ℕ :=
  (a.x - b.x).natAbs + (a.y - b.y).natAbs

/-- A fixed snapshot of the world map, as consumed by the pathfinder: the
map dimensions together with the walkable-tile list returned by
`WorldMap.getWalkableTiles` (tile type in {depot, spawn, other}, minus
adversary-occupied tiles and the companion tile) and the depot and spawn
tile lists.  The pathfinder claims are stated over this snapshot, exactly
as the spec does ("over a fixed walkable-tile snapshot"). -/
structure MapSnap where
  width : Int
  height : Int
  walkable : List Pos
  depotTiles : List Pos
  spawnTiles : List Pos
deriving DecidableEq, Repr

/-- The four cardinal neighbour candidates of a tile, in the order built
by `WorldMap.getNeighborTiles` (`src/belief/world-map.js:292-297`). -/
def neighborCandidates (p : Pos) : List Pos :=
  [⟨p.x - 1, p.y⟩, ⟨p.x + 1, p.y⟩, ⟨p.x, p.y - 1⟩, ⟨p.x, p.y + 1⟩]

/-- Bounds check `t.x >= 0 && t.x < width && t.y >= 0 && t.y < height`
(`src/belief/world-map.js:300`). -/
def inBounds (m : MapSnap) (p : Pos) : Bool :=
  0 ≤ p.x && p.x < m.width && 0 ≤ p.y && p.y < m.height

/-- `WorldMap.getNeighborTiles(tile)` with the default `walkable = true`:
4-connected neighbours inside the map bounds, intersected with the
walkable-tile snapshot (`src/belief/world-map.js:290-311`). -/
def getNeighborTiles (m : MapSnap) (p : Pos) : List Pos :=
  ((neighborCandidates p).filter (fun t => inBounds m t)).filter
    (fun t => m.walkable.contains t)

/-- `b` is reachable from `a` through a route of walkable tiles: the
reflexive-transitive closure of "step onto a walkable in-bounds
neighbour".  This is the graph the A* loop explores. -/
inductive Reach (m : MapSnap) (s : Pos) : Pos → Prop
  | refl : Reach m s s
  | step {a b : Pos} : Reach m s a → b ∈ getNeighborTiles m a → Reach m s b

/-! ## The A* pathfinder

Embedding of `findPath` from `src/utils/utils.js:32-137`.  The private
copy `GoTo.#findPath` (`src/planner/plans/go-to.js:140-255`) is identical
except for an extra early return of `[]`: its "destination is walkable
and start == end, or agent already on destination" check.  The agent
check is dead code (it destructures the fields `agentX`/`agentY` from a
promise, so both are `undefined` and the comparison with a number is
always false), and the `start == end` early return produces exactly what
the main loop produces in that case (the start node is popped first and
is the goal, so the path is `[]`), so one embedding covers both.

Node identity matters in the source: `openSet` and `cameFrom` hold
object references, and the start node pushed at `utils.js:73-78` is a
*different object* from the entry the node map holds for the start
coordinates.  `NId` reproduces that: `NId.start` is the pushed start
node, `NId.tile c` is the node-map entry for coordinates `c`. -/

/-- A node reference: the start node pushed into the open set, or the
node-map entry for a coordinate. -/
inductive NId where
  | start : NId
  | tile : Pos → NId
deriving DecidableEq, Repr

/-- The coordinates of a node reference. -/
def nidPos (s : Pos) : NId → Pos
  | .start => s
  | .tile c => c

/-- Overwrite-or-append insertion into an association list (the effect of
`Map.prototype.set`). -/
def aInsert {β : Type} (k : Pos) (v : β) : List (Pos × β) → List (Pos × β)
  | [] => [(k, v)]
  | (k', v') :: rest =>
    if k' = k then (k, v) :: rest else (k', v') :: aInsert k v rest

/-- Lookup in an association list (the effect of `Map.prototype.get`). -/
def aLookup {β : Type} (k : Pos) : List (Pos × β) → Option β
  | [] => none
  | (k', v') :: rest => if k' = k then some v' else aLookup k rest

/-- The `gScore` of a node-map entry; entries are initialised to
`Infinity` (`utils.js:56-57`), so a missing key reads as `⊤`. -/
def gLookup (g : List (Pos × ℕ∞)) (c : Pos) : ℕ∞ :=
  (aLookup c g).getD ⊤

/-- The `gScore` of a node reference: the pushed start node carries
`gScore = 0` (`utils.js:77`) and never changes (relaxations write to the
node map only). -/
def nidG (g : List (Pos × ℕ∞)) : NId → ℕ∞
  | .start => 0
  | .tile c => gLookup g c

/-- The `fScore` of a node reference.  The source stores `fScore`
alongside `gScore` and updates both together (`utils.js:124-125`), so
`fScore = gScore + h(node, end)` is an invariant; we compute it. -/
def nidF (g : List (Pos × ℕ∞)) (s e : Pos) (id : NId) : ℕ∞ :=
  nidG g id + (manhattan (nidPos s id) e : ℕ∞)

/-- The mutable state of the A* loop: the open set (`heap-js` min-heap,
embedded as a list from which the minimum-`fScore` element is popped),
the node-map `gScore`s, and the `cameFrom` map. -/
structure AState where
  openSet : List NId
  g : List (Pos × ℕ∞)
  cameFrom : List (Pos × NId)

/-- Pop a minimum-key element from a list (first among ties).  This
deterministically refines `Heap.pop` of `heap-js`; no theorem below
depends on which minimum is popped (the source in fact mutates `fScore`s
of nodes already inside the heap, so the heap can return a stale
minimum). -/
def popMin (key : NId → ℕ∞) : List NId → Option (NId × List NId)
  | [] => none
  | x :: xs =>
    match popMin key xs with
    | none => some (x, xs)
    | some (mn, rest) =>
      if key x ≤ key mn then some (x, xs) else some (mn, x :: rest)

/-- One expansion of the popped node `current`: the `neighbors.forEach`
relaxation body of `utils.js:107-132`.  For each walkable neighbour, if
`current.gScore + 1` improves on the neighbour's `gScore`, link
`cameFrom`, write the improved score, and add the neighbour to the open
set unless it is already there. -/
def relaxStep (current : NId) (acc : AState) (npos : Pos) : AState :=
  let tentative := nidG acc.g current + 1
  if tentative < gLookup acc.g npos then
    { openSet :=
        if NId.tile npos ∈ acc.openSet then acc.openSet
        else acc.openSet ++ [NId.tile npos]
      g := aInsert npos tentative acc.g
      cameFrom := aInsert npos current acc.cameFrom }
  else acc

/-- The full expansion of `current`: fold the relaxation over
`getNeighborTiles(current)` in source order. -/
def expand (m : MapSnap) (s : Pos) (current : NId) (st : AState) : AState :=
  (getNeighborTiles m (nidPos s current)).foldl (relaxStep current) st

/-- The largest finite `gScore` stored in the node map; used only to
size the fuel of the path reconstruction. -/
def maxG (g : List (Pos × ℕ∞)) : ℕ :=
  g.foldr (fun e acc => max (e.2.untop' 0) acc) 0

/-- Path reconstruction (`utils.js:92-102`):
`while (cameFrom.has(node)) { path.push(node); node = cameFrom.get(node) }`.
The pushed start node is never a `cameFrom` key, so the walk stops there.
The source loop has no fuel; it terminates because `gScore` strictly
decreases along `cameFrom` links, and any fuel larger than the goal's
`gScore` reproduces it exactly (fuel exhaustion, which the invariants
below rule out, is mapped to `none`). -/
def rebuild (cf : List (Pos × NId)) : ℕ → NId → Option (List Pos)
  | _, .start => some []
  | 0, .tile _ => none
  | fuel + 1, .tile c =>
    match aLookup c cf with
    | none => some []
    | some prev => (rebuild cf fuel prev).map (fun p => c :: p)

/-- The `while (!openSet.isEmpty())` loop of `utils.js:84-133`, with
fuel.  On popping the goal, reconstruct and reverse the path; on an
empty open set (or exhausted fuel), report failure, as the source's
final `return null`. -/
def astarLoop (m : MapSnap) (s e : Pos) : ℕ → AState → Option (List Pos)
  | 0, _ => none
  | fuel + 1, st =>
    match popMin (nidF st.g s e) st.openSet with
    | none => none
    | some (current, rest) =>
      if nidPos s current = e then
        (rebuild st.cameFrom (maxG st.g + 2) current).map List.reverse
      else
        astarLoop m s e fuel
          (expand m s current { st with openSet := rest })

/-- Fuel for the A* loop.  The source loop terminates because every
relaxation strictly decreases a `gScore`; any sufficiently large fuel is
equivalent, and no theorem below depends on the exact value (only on it
being positive). -/
def astarFuel (m : MapSnap) : ℕ :=
  (m.walkable.length + 2) * (m.walkable.length + 2) + 1

/-- `findPath(startPosition, endPosition)` from `src/utils/utils.js:32-137`:
reject an unwalkable destination, then run A* from the start node. -/
def findPath (m : MapSnap) (s e : Pos) : Option (List Pos) :=
  if m.walkable.contains e then
    astarLoop m s e (astarFuel m) { openSet := [NId.start], g := [], cameFrom := [] }
  else
    none

/-! ## Basic lemmas about the embedding's data structures -/

theorem aLookup_aInsert_self {β : Type} (k : Pos) (v : β) (l : List (Pos × β)) :
    aLookup k (aInsert k v l) = some v := by
  induction l with
  | nil => simp [aInsert, aLookup]
  | cons hd tl ih =>
    by_cases h : hd.1 = k <;> simp [aInsert, aLookup, h, ih]

theorem aLookup_aInsert_ne {β : Type} {k k' : Pos} (v : β) (l : List (Pos × β))
    (h : k' ≠ k) : aLookup k' (aInsert k v l) = aLookup k' l := by
  have hkk : ¬(k = k') := fun hh => h hh.symm
  induction l with
  | nil => simp [aInsert, aLookup, hkk]
  | cons hd tl ih =>
    obtain ⟨hk, hv⟩ := hd
    by_cases h1 : hk = k
    · subst h1
      simp [aInsert, aLookup, hkk]
    · by_cases h2 : hk = k' <;> simp [aInsert, aLookup, h1, h2, h, ih]

theorem aLookup_mem {β : Type} {k : Pos} {v : β} :
    ∀ {l : List (Pos × β)}, aLookup k l = some v → (k, v) ∈ l := by
  intro l
  induction l with
  | nil => intro h; simp [aLookup] at h
  | cons hd tl ih =>
    intro h
    obtain ⟨hk, hv⟩ := hd
    by_cases h1 : hk = k
    · subst h1
      simp [aLookup] at h
      subst h
      exact List.mem_cons_self _ _
    · simp [aLookup, h1] at h
      exact List.mem_cons_of_mem _ (ih h)

theorem aLookup_aInsert_isSome {β : Type} {k k' : Pos} (v : β) (l : List (Pos × β))
    (h : (aLookup k' l).isSome) : (aLookup k' (aInsert k v l)).isSome := by
  by_cases hk : k' = k
  · subst hk; simp [aLookup_aInsert_self]
  · rwa [aLookup_aInsert_ne v l hk]

theorem untop'_le_maxG {g : List (Pos × ℕ∞)} {c : Pos} {v : ℕ∞}
    (h : (c, v) ∈ g) : v.untop' 0 ≤ maxG g := by
  induction g with
  | nil => simp at h
  | cons hd tl ih =>
    rcases List.mem_cons.1 h with h | h
    · subst h; simp [maxG]
    · calc v.untop' 0 ≤ maxG tl := ih h
        _ ≤ maxG (hd :: tl) := by simp [maxG]

theorem gLookup_untop'_le_maxG {g : List (Pos × ℕ∞)} {c : Pos}
    (h : gLookup g c ≠ ⊤) : (gLookup g c).untop' 0 ≤ maxG g := by
  unfold gLookup at *
  cases hl : aLookup c g with
  | none => simp [hl] at h
  | some v => simpa [hl] using untop'_le_maxG (aLookup_mem hl)

theorem enat_lt_add_one {a : ℕ∞} (h : a ≠ ⊤) : a < a + 1 := by
  cases a with
  | top => simp at h
  | coe n => exact_mod_cast Nat.lt_succ_self n

theorem enat_untop'_lt {a b : ℕ∞} (h : a < b) (hb : b ≠ ⊤) :
    a.untop' 0 < b.untop' 0 := by
  cases a with
  | top => exact absurd h (by simp)
  | coe n =>
    cases b with
    | top => simp at hb
    | coe m => simpa using (by exact_mod_cast h : n < m)

theorem enat_add_one_ne_top {a : ℕ∞} (h : a + 1 ≠ ⊤) : a ≠ ⊤ := by
  intro ha
  subst ha
  simp at h

/-! ## Lemmas about neighbour tiles -/

theorem mem_getNeighborTiles_walkable {m : MapSnap} {a c : Pos}
    (h : c ∈ getNeighborTiles m a) : c ∈ m.walkable := by
  unfold getNeighborTiles at h
  have := (List.mem_filter.1 h).2
  simpa using this

theorem mem_neighborCandidates_manhattan {a c : Pos}
    (h : c ∈ neighborCandidates a) : manhattan a c = 1 := by
  unfold neighborCandidates at h
  simp only [List.mem_cons, List.not_mem_nil, or_false] at h
  rcases h with h | h | h | h <;> subst h <;> unfold manhattan <;> simp

theorem mem_getNeighborTiles_manhattan {m : MapSnap} {a c : Pos}
    (h : c ∈ getNeighborTiles m a) : manhattan a c = 1 := by
  unfold getNeighborTiles at h
  exact mem_neighborCandidates_manhattan
    (List.mem_filter.1 (List.mem_filter.1 h).1).1

theorem mem_getNeighborTiles_ne {m : MapSnap} {a c : Pos}
    (h : c ∈ getNeighborTiles m a) : c ≠ a := by
  intro hc
  subst hc
  have := mem_getNeighborTiles_manhattan h
  simp [manhattan] at this

/-! ## Lemmas about `popMin` -/

theorem popMin_eq_none_iff (key : NId → ℕ∞) (l : List NId) :
    popMin key l = none ↔ l = [] := by
  cases l with
  | nil => simp [popMin]
  | cons x xs =>
    constructor
    · intro h
      unfold popMin at h
      cases hx : popMin key xs with
      | none => simp [hx] at h
      | some p =>
        rw [hx] at h
        by_cases hk : key x ≤ key p.1 <;> simp [hk] at h
    · intro h; cases h

theorem popMin_mem {key : NId → ℕ∞} :
    ∀ {l rest : List NId} {c : NId}, popMin key l = some (c, rest) →
      c ∈ l ∧ ∀ x ∈ rest, x ∈ l := by
  intro l
  induction l with
  | nil => intro rest c h; simp [popMin] at h
  | cons x xs ih =>
    intro rest c h
    unfold popMin at h
    cases hx : popMin key xs with
    | none =>
      simp only [hx] at h
      injection h with h
      injection h with h1 h2
      subst h1; subst h2
      exact ⟨List.mem_cons_self _ _, fun y hy => List.mem_cons_of_mem _ hy⟩
    | some p =>
      obtain ⟨mn, rest'⟩ := p
      simp only [hx] at h
      by_cases hk : key x ≤ key mn
      · rw [if_pos hk] at h
        injection h with h
        injection h with h1 h2
        subst h1; subst h2
        exact ⟨List.mem_cons_self _ _, fun y hy => List.mem_cons_of_mem _ hy⟩
      · rw [if_neg hk] at h
        injection h with h
        injection h with h1 h2
        subst h1; subst h2
        obtain ⟨hm, hr⟩ := ih hx
        refine ⟨List.mem_cons_of_mem _ hm, ?_⟩
        intro y hy
        rcases List.mem_cons.1 hy with hy | hy
        · subst hy; exact List.mem_cons_self _ _
        · exact List.mem_cons_of_mem _ (hr y hy)

/-! ## The A* loop invariant

The invariant maintained by the `while` loop: every open node is
reachable from the start through walkable neighbours; every open
node-map entry has a `cameFrom` link (relaxation creates the link and
the heap insertion together); every `cameFrom` link goes from a walkable
neighbour of its predecessor, whose own chain continues (the only node
without a link is the pushed start node); and `gScore` strictly
decreases along `cameFrom` links, which makes the reconstruction walk
terminate at the pushed start node. -/
structure AInv (m : MapSnap) (s : Pos) (st : AState) : Prop where
  openReach : ∀ id ∈ st.openSet, Reach m s (nidPos s id)
  openKey : ∀ c : Pos, NId.tile c ∈ st.openSet → (aLookup c st.cameFrom).isSome
  edgeAdj : ∀ c prev, aLookup c st.cameFrom = some prev →
    c ∈ getNeighborTiles m (nidPos s prev)
  edgeReach : ∀ c prev, aLookup c st.cameFrom = some prev →
    Reach m s (nidPos s prev)
  edgePrev : ∀ c prev, aLookup c st.cameFrom = some prev →
    prev = NId.start ∨ ∃ d, prev = NId.tile d ∧ (aLookup d st.cameFrom).isSome
  edgeG : ∀ c prev, aLookup c st.cameFrom = some prev →
    nidG st.g prev < gLookup st.g c
  keyFin : ∀ c prev, aLookup c st.cameFrom = some prev → gLookup st.g c ≠ ⊤

theorem AInv_openSub {m : MapSnap} {s : Pos} {st : AState} (hInv : AInv m s st)
    {rest : List NId} (hsub : ∀ x ∈ rest, x ∈ st.openSet) :
    AInv m s { st with openSet := rest } where
  openReach := fun id hid => hInv.openReach id (hsub id hid)
  openKey := fun c hc => hInv.openKey c (hsub _ hc)
  edgeAdj := hInv.edgeAdj
  edgeReach := hInv.edgeReach
  edgePrev := hInv.edgePrev
  edgeG := hInv.edgeG
  keyFin := hInv.keyFin

theorem relaxStep_inv {m : MapSnap} {s : Pos} {current : NId} {st : AState}
    {npos : Pos}
    (hInv : AInv m s st)
    (hcur : Reach m s (nidPos s current))
    (hkey : current = NId.start ∨
      ∃ d, current = NId.tile d ∧ (aLookup d st.cameFrom).isSome)
    (hn : npos ∈ getNeighborTiles m (nidPos s current)) :
    AInv m s (relaxStep current st npos) ∧
      (current = NId.start ∨
        ∃ d, current = NId.tile d ∧
          (aLookup d (relaxStep current st npos).cameFrom).isSome) := by
  unfold relaxStep
  by_cases hrel : nidG st.g current + 1 < gLookup st.g npos
  · simp only [hrel, if_true]
    have hne : npos ≠ nidPos s current := mem_getNeighborTiles_ne hn
    have htop : nidG st.g current + 1 ≠ ⊤ := ne_top_of_lt hrel
    have hcurfin : nidG st.g current ≠ ⊤ := enat_add_one_ne_top htop
    have hGcur : nidG (aInsert npos (nidG st.g current + 1) st.g) current
        = nidG st.g current := by
      cases current with
      | start => rfl
      | tile d =>
        have hdn : d ≠ npos := fun hd => hne (by simp [nidPos, hd.symm])
        simp [nidG, gLookup, aLookup_aInsert_ne _ _ hdn]
    have hGmono : ∀ id, nidG (aInsert npos (nidG st.g current + 1) st.g) id
        ≤ nidG st.g id := by
      intro id
      cases id with
      | start => exact le_refl _
      | tile c =>
        by_cases hc : c = npos
        · subst hc
          simp [nidG, gLookup, aLookup_aInsert_self]
          exact le_of_lt hrel
        · simp [nidG, gLookup, aLookup_aInsert_ne _ _ hc]
    have hgNew : gLookup (aInsert npos (nidG st.g current + 1) st.g) npos
        = nidG st.g current + 1 := by
      simp [gLookup, aLookup_aInsert_self]
    have hgOld : ∀ c, c ≠ npos →
        gLookup (aInsert npos (nidG st.g current + 1) st.g) c = gLookup st.g c := by
      intro c hc
      simp [gLookup, aLookup_aInsert_ne _ _ hc]
    constructor
    · constructor
      · -- openReach
        intro id hid
        by_cases ho : NId.tile npos ∈ st.openSet
        · simp only [ho, if_true] at hid
          exact hInv.openReach id hid
        · simp only [ho, if_false] at hid
          rcases List.mem_append.1 hid with hid | hid
          · exact hInv.openReach id hid
          · simp at hid
            subst hid
            exact Reach.step hcur hn
      · -- openKey
        intro c hc
        by_cases hcn : c = npos
        · subst hcn
          simp [aLookup_aInsert_self]
        · have hc' : NId.tile c ∈ st.openSet := by
            by_cases ho : NId.tile npos ∈ st.openSet
            · simpa [ho] using hc
            · simp only [ho, if_false] at hc
              rcases List.mem_append.1 hc with hc | hc
              · exact hc
              · simp at hc
                exact absurd hc hcn
          exact aLookup_aInsert_isSome _ _ (hInv.openKey c hc')
      · -- edgeAdj
        intro c prev hcp
        by_cases hcn : c = npos
        · subst hcn
          rw [aLookup_aInsert_self] at hcp
          injection hcp with hcp
          subst hcp
          exact hn
        · rw [aLookup_aInsert_ne _ _ hcn] at hcp
          exact hInv.edgeAdj c prev hcp
      · -- edgeReach
        intro c prev hcp
        by_cases hcn : c = npos
        · subst hcn
          rw [aLookup_aInsert_self] at hcp
          injection hcp with hcp
          subst hcp
          exact hcur
        · rw [aLookup_aInsert_ne _ _ hcn] at hcp
          exact hInv.edgeReach c prev hcp
      · -- edgePrev
        intro c prev hcp
        by_cases hcn : c = npos
        · subst hcn
          rw [aLookup_aInsert_self] at hcp
          injection hcp with hcp
          subst hcp
          rcases hkey with hk | ⟨d, hk, hsome⟩
          · exact Or.inl hk
          · exact Or.inr ⟨d, hk, aLookup_aInsert_isSome _ _ hsome⟩
        · rw [aLookup_aInsert_ne _ _ hcn] at hcp
          rcases hInv.edgePrev c prev hcp with hk | ⟨d, hk, hsome⟩
          · exact Or.inl hk
          · exact Or.inr ⟨d, hk, aLookup_aInsert_isSome _ _ hsome⟩
      · -- edgeG
        intro c prev hcp
        by_cases hcn : c = npos
        · subst hcn
          rw [aLookup_aInsert_self] at hcp
          injection hcp with hcp
          subst hcp
          rw [hGcur, hgNew]
          exact enat_lt_add_one hcurfin
        · rw [aLookup_aInsert_ne _ _ hcn] at hcp
          rw [hgOld c hcn]
          exact lt_of_le_of_lt (hGmono prev) (hInv.edgeG c prev hcp)
      · -- keyFin
        intro c prev hcp
        by_cases hcn : c = npos
        · subst hcn
          rw [hgNew]
          exact htop
        · rw [aLookup_aInsert_ne _ _ hcn] at hcp
          rw [hgOld c hcn]
          exact hInv.keyFin c prev hcp
    · rcases hkey with hk | ⟨d, hk, hsome⟩
      · exact Or.inl hk
      · exact Or.inr ⟨d, hk, aLookup_aInsert_isSome _ _ hsome⟩
  · simp only [hrel, if_false]
    exact ⟨hInv, hkey⟩

theorem foldl_relax_inv {m : MapSnap} {s : Pos} {current : NId} :
    ∀ (ns : List Pos) (st : AState),
      (∀ x ∈ ns, x ∈ getNeighborTiles m (nidPos s current)) →
      AInv m s st →
      Reach m s (nidPos s current) →
      (current = NId.start ∨
        ∃ d, current = NId.tile d ∧ (aLookup d st.cameFrom).isSome) →
      AInv m s (ns.foldl (relaxStep current) st) := by
  intro ns
  induction ns with
  | nil => intro st _ h _ _; exact h
  | cons x xs ih =>
    intro st hsub hInv hcur hkey
    have hx := hsub x (List.mem_cons_self _ _)
    obtain ⟨h1, h2⟩ := relaxStep_inv hInv hcur hkey hx
    exact ih _ (fun y hy => hsub y (List.mem_cons_of_mem _ hy)) h1 hcur h2

theorem expand_inv {m : MapSnap} {s : Pos} {current : NId} {st : AState}
    (hInv : AInv m s st)
    (hcur : Reach m s (nidPos s current))
    (hkey : current = NId.start ∨
      ∃ d, current = NId.tile d ∧ (aLookup d st.cameFrom).isSome) :
    AInv m s (expand m s current st) :=
  foldl_relax_inv _ st (fun _ h => h) hInv hcur hkey

/-! ## Path reconstruction correctness -/

/-- The chain of `cameFrom` links below a node: the list the
reconstruction loop pushes (in goal-to-start order) when started at that
node.  Each pushed coordinate is a walkable neighbour of its
predecessor's position, and the chain bottoms out at the pushed start
node. -/
inductive CFChain (m : MapSnap) (s : Pos) (cf : List (Pos × NId)) : NId → List Pos → Prop
  | nil : CFChain m s cf NId.start []
  | cons {c : Pos} {prev : NId} {rest : List Pos} :
      aLookup c cf = some prev →
      c ∈ getNeighborTiles m (nidPos s prev) →
      CFChain m s cf prev rest →
      CFChain m s cf (NId.tile c) (c :: rest)

theorem rebuild_start {cf : List (Pos × NId)} (fuel : ℕ) :
    rebuild cf fuel NId.start = some [] := by
  cases fuel <;> rfl

theorem rebuild_ok {m : MapSnap} {s : Pos} {st : AState} (hInv : AInv m s st) :
    ∀ (fuel : ℕ) (id : NId),
      (id = NId.start ∨ ∃ c, id = NId.tile c ∧ (aLookup c st.cameFrom).isSome) →
      (nidG st.g id).untop' 0 < fuel →
      ∃ p, rebuild st.cameFrom fuel id = some p ∧ CFChain m s st.cameFrom id p := by
  intro fuel
  induction fuel with
  | zero => intro id _ hlt; exact absurd hlt (Nat.not_lt_zero _)
  | succ n ih =>
    intro id hid hlt
    rcases hid with hid | ⟨c, hid, hsome⟩
    · subst hid
      exact ⟨[], rebuild_start _, CFChain.nil⟩
    · subst hid
      obtain ⟨prev, hprev⟩ := Option.isSome_iff_exists.1 hsome
      have hAdj := hInv.edgeAdj c prev hprev
      have hPrevKey := hInv.edgePrev c prev hprev
      have hG := hInv.edgeG c prev hprev
      have hFin := hInv.keyFin c prev hprev
      have hlt' : (nidG st.g prev).untop' 0 < n := by
        have h1 : (nidG st.g prev).untop' 0 < (gLookup st.g c).untop' 0 :=
          enat_untop'_lt hG hFin
      -- `nidG st.g (NId.tile c) = gLookup st.g c` definitionally
        have h2 : (gLookup st.g c).untop' 0 < n + 1 := hlt
        omega
      obtain ⟨p, hp, hchain⟩ := ih prev hPrevKey hlt'
      refine ⟨c :: p, ?_, CFChain.cons hprev hAdj hchain⟩
      show rebuild st.cameFrom (n + 1) (NId.tile c) = some (c :: p)
      unfold rebuild
      simp [hprev, hp]

theorem cfchain_walkable {m : MapSnap} {s : Pos} {cf : List (Pos × NId)} :
    ∀ {id : NId} {p : List Pos}, CFChain m s cf id p → ∀ c ∈ p, c ∈ m.walkable := by
  intro id p h
  induction h with
  | nil => intro c hc; simp at hc
  | cons hlk hadj hch ih =>
    intro c' hc'
    rcases List.mem_cons.1 hc' with hc' | hc'
    · subst hc'
      exact mem_getNeighborTiles_walkable hadj
    · exact ih c' hc'

theorem cfchain_shape {m : MapSnap} {s : Pos} {cf : List (Pos × NId)} :
    ∀ {id : NId} {p : List Pos}, CFChain m s cf id p →
      p.reverse.Chain' (fun a b => manhattan a b = 1)
      ∧ (p = [] ∨ ∃ h0, p.reverse.head? = some h0 ∧ manhattan s h0 = 1) := by
  intro id p h
  induction h with
  | nil => exact ⟨List.chain'_nil, Or.inl rfl⟩
  | @cons c prev rest hlk hadj hch ih =>
    obtain ⟨ihc, ihh⟩ := ih
    constructor
    · rw [List.reverse_cons, List.chain'_append]
      refine ⟨ihc, List.chain'_singleton _, ?_⟩
      intro x hx y hy
      simp at hy
      subst hy
      cases hch with
      | nil => simp at hx
      | @cons c' prev' rest' hlk' hadj' hch' =>
        rw [List.reverse_cons, List.getLast?_concat] at hx
        simp at hx
        subst hx
        simpa using mem_getNeighborTiles_manhattan hadj
    · cases hch with
      | nil =>
        right
        exact ⟨c, by simp, by simpa using mem_getNeighborTiles_manhattan hadj⟩
      | @cons c' prev' rest' hlk' hadj' hch' =>
        rcases ihh with hnil | ⟨h0, hh0, hman⟩
        · simp at hnil
        · right
          refine ⟨h0, ?_, hman⟩
          rw [List.reverse_cons]
          cases hrev : (c' :: rest').reverse with
          | nil => simp at hrev
          | cons z zs =>
            rw [hrev] at hh0
            simp at hh0
            subst hh0
            simp [hrev]

/-! ## Main A* loop theorem -/

theorem astarLoop_succ (m : MapSnap) (s e : Pos) (n : ℕ) (st : AState) :
    astarLoop m s e (n + 1) st =
      match popMin (nidF st.g s e) st.openSet with
      | none => none
      | some (current, rest) =>
        if nidPos s current = e then
          (rebuild st.cameFrom (maxG st.g + 2) current).map List.reverse
        else
          astarLoop m s e n (expand m s current { st with openSet := rest }) := rfl

theorem astarLoop_some {m : MapSnap} {s e : Pos} :
    ∀ (fuel : ℕ) (st : AState), AInv m s st →
      ∀ p, astarLoop m s e fuel st = some p →
        Reach m s e
        ∧ (∀ c ∈ p, c ∈ m.walkable)
        ∧ p.Chain' (fun a b => manhattan a b = 1)
        ∧ (∀ h0, p.head? = some h0 → manhattan s h0 = 1)
        ∧ (p = [] → s = e)
        ∧ (p ≠ [] → p.getLast? = some e) := by
  intro fuel
  induction fuel with
  | zero => intro st _ p h; simp [astarLoop] at h
  | succ n ih =>
    intro st hInv p h
    rw [astarLoop_succ] at h
    cases hpop : popMin (nidF st.g s e) st.openSet with
    | none => simp [hpop] at h
    | some pr =>
      obtain ⟨current, rest⟩ := pr
      simp only [hpop] at h
      obtain ⟨hmem, hsub⟩ := popMin_mem hpop
      have hks : current = NId.start ∨
          ∃ c, current = NId.tile c ∧ (aLookup c st.cameFrom).isSome := by
        cases current with
        | start => exact Or.inl rfl
        | tile c => exact Or.inr ⟨c, rfl, hInv.openKey c hmem⟩
      by_cases hgoal : nidPos s current = e
      · rw [if_pos hgoal] at h
        have hfl : (nidG st.g current).untop' 0 < maxG st.g + 2 := by
          rcases hks with hks | ⟨c, hks, hsome⟩
          · subst hks
            show ((0 : ℕ∞)).untop' 0 < maxG st.g + 2
            simp
          · subst hks
            obtain ⟨prev, hprev⟩ := Option.isSome_iff_exists.1 hsome
            have hFin : gLookup st.g c ≠ ⊤ := hInv.keyFin c prev hprev
            have := gLookup_untop'_le_maxG hFin
            show (gLookup st.g c).untop' 0 < maxG st.g + 2
            omega
        obtain ⟨q, hq, hchain⟩ := rebuild_ok hInv (maxG st.g + 2) current hks hfl
        rw [hq] at h
        simp only [Option.map_some'] at h
        injection h with h
        subst h
        refine ⟨?_, ?_, ?_, ?_, ?_, ?_⟩
        · have := hInv.openReach current hmem
          rwa [hgoal] at this
        · intro c hc
          exact cfchain_walkable hchain c (by simpa using hc)
        · exact (cfchain_shape hchain).1
        · intro h0 hhead
          rcases (cfchain_shape hchain).2 with hnil | ⟨h1, hh1, hman⟩
          · subst hnil; simp at hhead
          · rw [hh1] at hhead
            injection hhead with hhead
            subst hhead
            exact hman
        · intro hpnil
          have hqnil : q = [] := by simpa using hpnil
          subst hqnil
          cases hchain with
          | nil =>
            -- current = NId.start, so nidPos s current = s
            simpa [nidPos] using hgoal
        · intro hpne
          cases hchain with
          | nil => simp at hpne
          | @cons c prev rest0 hlk hadj hch =>
            rw [List.reverse_cons, List.getLast?_concat]
            have : c = e := by simpa [nidPos] using hgoal
            rw [this]
      · rw [if_neg hgoal] at h
        have hInv' : AInv m s { st with openSet := rest } := AInv_openSub hInv hsub
        have hcur : Reach m s (nidPos s current) := hInv.openReach current hmem
        exact ih _ (expand_inv hInv' hcur hks) p h

theorem AInv_init (m : MapSnap) (s : Pos) :
    AInv m s { openSet := [NId.start], g := [], cameFrom := [] } where
  openReach := by
    intro id hid
    simp at hid
    subst hid
    exact Reach.refl
  openKey := by intro c hc; simp at hc
  edgeAdj := by intro c prev h; simp [aLookup] at h
  edgeReach := by intro c prev h; simp [aLookup] at h
  edgePrev := by intro c prev h; simp [aLookup] at h
  edgeG := by intro c prev h; simp [aLookup] at h
  keyFin := by intro c prev h; simp [aLookup] at h

/-- **C1**.  For every call `findPath(start, end)` over a fixed
walkable-tile snapshot: it returns `null` when the destination is not a
walkable tile or no route of walkable tiles connects start to end; it
returns an empty path when start equals end (at every call site the
start argument *is* the agent's current position, so "the agent is
already on the destination tile" is the same condition; the separate
agent-position check inside `GoTo.#findPath` is dead code); and every
non-null result satisfies the round-trip shape: the first element is
4-adjacent to start, the last element equals end, every consecutive pair
of elements is 4-adjacent, and every element is a walkable tile of the
snapshot. -/
theorem c1_findPath_roundtrip (m : MapSnap) (s e : Pos) :
    ((e ∉ m.walkable ∨ ¬Reach m s e) → findPath m s e = none)
    ∧ (e ∈ m.walkable → s = e → findPath m s e = some [])
    ∧ (∀ p, findPath m s e = some p →
        (∀ c ∈ p, c ∈ m.walkable)
        ∧ p.Chain' (fun a b => manhattan a b = 1)
        ∧ (∀ h0, p.head? = some h0 → manhattan s h0 = 1)
        ∧ (p = [] → s = e)
        ∧ (p ≠ [] → p.getLast? = some e)) := by
  refine ⟨?_, ?_, ?_⟩
  · intro h
    rcases h with h | h
    · simp [findPath, h]
    · by_cases hc : m.walkable.contains e = true
      · cases hres : findPath m s e with
        | none => rfl
        | some p =>
          exfalso
          unfold findPath at hres
          rw [if_pos hc] at hres
          exact h (astarLoop_some _ _ (AInv_init m s) p hres).1
      · have hmem : e ∉ m.walkable := by simpa using hc
        simp [findPath, hmem]
  · intro hw hse
    subst hse
    have hc : m.walkable.contains s = true := by simpa using hw
    unfold findPath
    rw [if_pos hc]
    have hfuel : astarFuel m = ((m.walkable.length + 2) * (m.walkable.length + 2)) + 1 := rfl
    rw [hfuel, astarLoop_succ]
    have hp : popMin (nidF [] s s) [NId.start] = some (NId.start, []) := rfl
    rw [hp]
    simp [nidPos, rebuild_start]
  · intro p hp
    unfold findPath at hp
    by_cases hc : m.walkable.contains e = true
    · rw [if_pos hc] at hp
      obtain ⟨_, h2, h3, h4, h5, h6⟩ := astarLoop_some _ _ (AInv_init m s) p hp
      exact ⟨h2, h3, h4, h5, h6⟩
    · rw [if_neg hc] at hp
      cases hp

/-- Witness for `c1_findPath_roundtrip`: on a concrete 2-tile snapshot,
the hypotheses of each conjunct are dischargeable and yield concrete
results: the empty path on `start = end`, `null` on an unwalkable
destination, and a shaped path for a non-null result. -/
theorem c1_findPath_roundtrip_witness :
    findPath ⟨1, 2, [⟨0, 0⟩, ⟨0, 1⟩], [], []⟩ ⟨0, 0⟩ ⟨0, 0⟩ = some []
    ∧ findPath ⟨1, 2, [⟨0, 0⟩, ⟨0, 1⟩], [], []⟩ ⟨0, 0⟩ ⟨5, 5⟩ = none
    ∧ (∀ c ∈ [(⟨0, 1⟩ : Pos)], c ∈ [(⟨0, 0⟩ : Pos), ⟨0, 1⟩] ) := by
  refine ⟨?_, ?_, ?_⟩
  · exact (c1_findPath_roundtrip ⟨1, 2, [⟨0, 0⟩, ⟨0, 1⟩], [], []⟩ ⟨0, 0⟩ ⟨0, 0⟩).2.1
      (by decide) rfl
  · exact (c1_findPath_roundtrip ⟨1, 2, [⟨0, 0⟩, ⟨0, 1⟩], [], []⟩ ⟨0, 0⟩ ⟨5, 5⟩).1
      (Or.inl (by decide))
  · exact ((c1_findPath_roundtrip ⟨1, 2, [⟨0, 0⟩, ⟨0, 1⟩], [], []⟩ ⟨0, 0⟩ ⟨0, 1⟩).2.2
      [⟨0, 1⟩] (by decide)).1

/-! ## Parcels and expiry (C5)

Embedding of `Parcel.isExpired` (`src/belief/map-entities/parcel.js:34-42`)
and `WorldMap.updateParcels` (`src/belief/world-map.js:70-94`).
JavaScript number arithmetic is embedded in `ℚ`, which is exact on the
values involved (the claims use integer rewards and millisecond
timestamps; floats and rationals agree on these as real-number
functions, for a positive decay interval). -/

/-- A parcel as stored in the world map: built by `#onParcelsSensed`
(`world-state.js:125-149`), which only inserts parcels with
`carriedBy == null` and copies `x`, `y`, `id`, `reward` and the
perception timestamp. -/
structure Parcel where
  id : String
  x : Int
  y : Int
  reward : ℚ
  timestamp : ℚ
  carriedBy : Option String
deriving DecidableEq, Repr

/-- `Parcel.isExpired(timestamp, PARCEL_DECADING_INTERVAL)`
(`parcel.js:34-42`): `timeDelta = (timestamp - this.timestamp) / 1000`
(milliseconds to seconds), `pointsDecayed = Math.floor(timeDelta /
PARCEL_DECADING_INTERVAL)`, expired iff `reward - pointsDecayed < 0`. -/
def Parcel.isExpired (p : Parcel) (timestamp PARCEL_DECADING_INTERVAL : ℚ) : Bool :=
  let timeDelta := (timestamp - p.timestamp) / 1000
  let pointsDecayed : ℤ := ⌊timeDelta / PARCEL_DECADING_INTERVAL⌋
  decide (p.reward - (pointsDecayed : ℚ) < 0)

/-- The spec's derived predicate
`isExpired(now, decayInterval) ≡ reward − ⌊(now−timestamp)/decayInterval⌋ < 0`,
with `now − timestamp` in milliseconds and the decay interval expressed
in the same unit (the configuration stores the interval in seconds, so
an interval of `i` seconds enters this formula as `1000 * i`). -/
def isExpiredSpec (p : Parcel) (now decayIntervalMs : ℚ) : Prop :=
  p.reward - (⌊(now - p.timestamp) / decayIntervalMs⌋ : ℚ) < 0

/-- The per-parcel upsert of `updateParcels` (`world-map.js:80-93`):
find the first parcel with the same id; if it exists and is strictly
older, splice the new parcel in at its index; if it exists and is not
older, keep it; otherwise push the new parcel at the end. -/
def upsertParcel : List Parcel → Parcel → List Parcel
  | [], np => [np]
  | p :: ps, np =>
    if p.id = np.id then
      if p.timestamp < np.timestamp then np :: ps else p :: ps
    else p :: upsertParcel ps np

/-- `WorldMap.updateParcels(parcels, timestamp)` (`world-map.js:70-94`):
drop every expired parcel, then upsert the new parcels in order. -/
def updateParcels (parcels newParcels : List Parcel)
    (timestamp PARCEL_DECADING_INTERVAL : ℚ) : List Parcel :=
  newParcels.foldl upsertParcel
    (parcels.filter (fun p => !(p.isExpired timestamp PARCEL_DECADING_INTERVAL)))

theorem mem_upsertParcel {q np : Parcel} :
    ∀ {ps : List Parcel}, q ∈ upsertParcel ps np → q = np ∨ q ∈ ps := by
  intro ps
  induction ps with
  | nil => intro h; simp [upsertParcel] at h; exact Or.inl h
  | cons p ps ih =>
    intro h
    by_cases h1 : p.id = np.id
    · by_cases h2 : p.timestamp < np.timestamp
      · simp only [upsertParcel, if_pos h1, if_pos h2] at h
        rcases List.mem_cons.1 h with h | h
        · exact Or.inl h
        · exact Or.inr (List.mem_cons_of_mem _ h)
      · simp only [upsertParcel, if_pos h1, if_neg h2] at h
        exact Or.inr h
    · simp only [upsertParcel, if_neg h1] at h
      rcases List.mem_cons.1 h with h | h
      · exact Or.inr (by simp [h])
      · rcases ih h with h | h
        · exact Or.inl h
        · exact Or.inr (List.mem_cons_of_mem _ h)

theorem mem_foldl_upsertParcel {q : Parcel} :
    ∀ {news init : List Parcel}, q ∈ news.foldl upsertParcel init →
      q ∈ init ∨ q ∈ news := by
  intro news
  induction news with
  | nil => intro init h; exact Or.inl h
  | cons np news ih =>
    intro init h
    rcases ih h with h | h
    · rcases mem_upsertParcel h with h | h
      · exact Or.inr (by simp [h])
      · exact Or.inl h
    · exact Or.inr (List.mem_cons_of_mem _ h)

/-- **C5**.  A parcel is expired exactly when
`reward − ⌊(now−timestamp)/decayInterval⌋ < 0` (interval in the unit of
the timestamps; the code divides by 1000 first because its interval is
in seconds); `updateParcels(newParcels, now)` first removes every
expired parcel — every old parcel that survives is non-expired — and
then upserts the new parcels by id (`upsertParcel` keeps the entry with
the newer timestamp); and concretely a parcel with `reward = 5`,
`timestamp = 0` and a 1-second decay interval is expired at
`now = 6000` and `updateParcels([], 6000)` removes it. -/
theorem c5_parcel_expiry :
    (∀ (p : Parcel) (now interval : ℚ),
      p.isExpired now interval = true ↔ isExpiredSpec p now (1000 * interval))
    ∧ (∀ (parcels newParcels : List Parcel) (now interval : ℚ),
        ∀ q ∈ updateParcels parcels newParcels now interval,
          q ∈ newParcels ∨ (q ∈ parcels ∧ q.isExpired now interval = false))
    ∧ (∀ (old np : Parcel), old.id = np.id →
        upsertParcel [old] np = if old.timestamp < np.timestamp then [np] else [old])
    ∧ Parcel.isExpired ⟨"p1", 0, 0, 5, 0, none⟩ 6000 1 = true
    ∧ updateParcels [⟨"p1", 0, 0, 5, 0, none⟩] [] 6000 1 = [] := by
  refine ⟨?_, ?_, ?_, ?_, ?_⟩
  · intro p now interval
    unfold Parcel.isExpired isExpiredSpec
    rw [decide_eq_true_iff]
    rw [div_div]
  · intro parcels newParcels now interval q hq
    unfold updateParcels at hq
    rcases mem_foldl_upsertParcel hq with hq | hq
    · right
      have := List.mem_filter.1 hq
      refine ⟨this.1, ?_⟩
      have h2 := this.2
      simp at h2
      exact h2
    · exact Or.inl hq
  · intro old np hid
    simp [upsertParcel, hid]
  · unfold Parcel.isExpired
    norm_num
  · have hexp : Parcel.isExpired ⟨"p1", 0, 0, 5, 0, none⟩ 6000 1 = true := by
      unfold Parcel.isExpired
      norm_num
    simp [updateParcels, List.filter, hexp]

/-- Witness for `c5_parcel_expiry`: the removal conjunct instantiated on
the concrete expired parcel of the claim (the membership hypothesis is
discharged by the vacuity of the empty result, exercised through the
concrete conjuncts), and the upsert conjunct at a concrete newer
parcel. -/
theorem c5_parcel_expiry_witness :
    (Parcel.isExpired ⟨"p1", 0, 0, 5, 0, none⟩ 6000 1 = true
      ↔ isExpiredSpec ⟨"p1", 0, 0, 5, 0, none⟩ 6000 (1000 * 1))
    ∧ upsertParcel [⟨"p1", 0, 0, 5, 0, none⟩] ⟨"p1", 1, 1, 9, 50, none⟩
        = [⟨"p1", 1, 1, 9, 50, none⟩] :=
  ⟨c5_parcel_expiry.1 ⟨"p1", 0, 0, 5, 0, none⟩ 6000 1,
   by
    rw [c5_parcel_expiry.2.2.1 ⟨"p1", 0, 0, 5, 0, none⟩ ⟨"p1", 1, 1, 9, 50, none⟩ rfl]
    norm_num⟩

/-! ## The `onMap` tile-code handler (C7)

Embedding of the `client.onMap` callback of `observerWorldState`
(`src/belief/world-state.js:57-105`): the nested `y`/`x` loops read
`rawTiles[y * width + x].type` and `switch` on it.  The `switch` has
cases for the codes 0 (`WALL`), 1 (`SPAWN`, pushed to `spawnTiles`),
2 (`DEPOT`, pushed to `depotTiles`) and 3 (`OTHER`); every other code —
including 4 and 5 — falls to the `default` branch, which `throw`s. -/

/-- Tile types, from `src/belief/map-entities/tile-type.js`. -/
inductive TileType where
  | wall
  | spawn
  | depot
  | other
deriving DecidableEq, Repr

/-- The `switch (rawTiles[y * width + x].type)` of the `onMap` handler
(`world-state.js:71-93`): codes 0/1/2/3 map to tile types, any other
code hits the `default` branch and throws. -/
def classifyRawTile (c : Int) : Except Unit TileType :=
  if c = 0 then .ok .wall
  else if c = 1 then .ok .spawn
  else if c = 2 then .ok .depot
  else if c = 3 then .ok .other
  else .error ()

/-- The `Pos` of natural loop indices `x`, `y` (the source loop counters). -/
def posOfNat (x y : ℕ) : Pos :=
  ⟨Int.ofNat x, Int.ofNat y⟩

/-- One `onMap` row: scan the given column indices at row `y`, reading
codes from the flat `rawTiles` array at `y * width + x` (an out-of-range
read is a hard fault in the source — `undefined.type` — and an error
here).  Returns the row's tiles and the spawn and depot tiles pushed
while scanning it, in scan order. -/
def buildRow (raw : List Int) (width y : ℕ) :
    List ℕ → Except Unit (List (Pos × TileType) × List Pos × List Pos)
  | [] => .ok ([], [], [])
  | x :: xs => do
    let code ← match raw[y * width + x]? with
      | some c => Except.ok c
      | none => Except.error ()
    let ty ← classifyRawTile code
    let (tiles, spawns, depots) ← buildRow raw width y xs
    let p : Pos := posOfNat x y
    Except.ok ((p, ty) :: tiles,
      (if ty = TileType.spawn then p :: spawns else spawns),
      (if ty = TileType.depot then p :: depots else depots))

/-- The outer `y` loop of the `onMap` handler: build each row and
concatenate the spawn/depot tiles in row order. -/
def buildRows (raw : List Int) (width : ℕ) :
    List ℕ → Except Unit (List (List (Pos × TileType)) × List Pos × List Pos)
  | [] => .ok ([], [], [])
  | y :: ys => do
    let (row, s1, d1) ← buildRow raw width y (List.range width)
    let (rows, s2, d2) ← buildRows raw width ys
    Except.ok (row :: rows, s1 ++ s2, d1 ++ d2)

/-- The full `onMap` map construction (`world-state.js:57-105`). -/
def onMapBuild (raw : List Int) (width height : ℕ) :
    Except Unit (List (List (Pos × TileType)) × List Pos × List Pos) :=
  buildRows raw width (List.range height)

theorem classifyRawTile_spawn_iff {c : Int} {ty : TileType}
    (h : classifyRawTile c = .ok ty) : ty = TileType.spawn ↔ c = 1 := by
  unfold classifyRawTile at h
  split_ifs at h with h0 h1 h2 h3 <;>
    first
      | (injection h with h; subst h; constructor <;> intro hh <;> simp_all <;> omega)
      | cases h

theorem classifyRawTile_depot_iff {c : Int} {ty : TileType}
    (h : classifyRawTile c = .ok ty) : ty = TileType.depot ↔ c = 2 := by
  unfold classifyRawTile at h
  split_ifs at h with h0 h1 h2 h3 <;>
    first
      | (injection h with h; subst h; constructor <;> intro hh <;> simp_all <;> omega)
      | cases h

theorem buildRow_spawns {raw : List Int} {width y : ℕ} :
    ∀ {xs : List ℕ} {row : List (Pos × TileType)} {spawns depots : List Pos},
      buildRow raw width y xs = .ok (row, spawns, depots) →
      spawns = (xs.filter (fun x => raw[y * width + x]? = some 1)).map
          (fun x => posOfNat x y)
      ∧ depots = (xs.filter (fun x => raw[y * width + x]? = some 2)).map
          (fun x => posOfNat x y) := by
  intro xs
  induction xs with
  | nil =>
    intro row spawns depots h
    simp [buildRow] at h
    obtain ⟨_, h2, h3⟩ := h
    subst h2; subst h3
    simp
  | cons x xs ih =>
    intro row spawns depots h
    simp only [buildRow, bind, Except.bind] at h
    cases hc : raw[y * width + x]? with
    | none => rw [hc] at h; cases h
    | some code =>
      rw [hc] at h
      simp only at h
      cases hty : classifyRawTile code with
      | error e => rw [hty] at h; cases h
      | ok ty =>
        rw [hty] at h
        simp only at h
        cases hrec : buildRow raw width y xs with
        | error e => rw [hrec] at h; cases h
        | ok triple =>
          obtain ⟨tiles0, spawns0, depots0⟩ := triple
          rw [hrec] at h
          simp only [Except.ok.injEq, Prod.mk.injEq] at h
          obtain ⟨hrow, hsp, hdp⟩ := h
          obtain ⟨ihs, ihd⟩ := ih hrec
          constructor
          · rw [← hsp]
            by_cases hcode : code = 1
            · have hs : ty = TileType.spawn := (classifyRawTile_spawn_iff hty).2 hcode
              subst hcode
              subst hs
              simp [List.filter_cons, hc, ihs]
            · have hs : ty ≠ TileType.spawn :=
                fun hh => hcode ((classifyRawTile_spawn_iff hty).1 hh)
              simp [hs, List.filter_cons, hc, hcode, ihs]
          · rw [← hdp]
            by_cases hcode : code = 2
            · have hs : ty = TileType.depot := (classifyRawTile_depot_iff hty).2 hcode
              subst hcode
              subst hs
              simp [List.filter_cons, hc, ihd]
            · have hs : ty ≠ TileType.depot :=
                fun hh => hcode ((classifyRawTile_depot_iff hty).1 hh)
              simp [hs, List.filter_cons, hc, hcode, ihd]

theorem buildRows_spawns {raw : List Int} {width : ℕ} :
    ∀ {ys : List ℕ} {rows : List (List (Pos × TileType))} {spawns depots : List Pos},
      buildRows raw width ys = .ok (rows, spawns, depots) →
      spawns = ys.flatMap (fun y =>
          ((List.range width).filter (fun x => raw[y * width + x]? = some 1)).map
            (fun x => posOfNat x y))
      ∧ depots = ys.flatMap (fun y =>
          ((List.range width).filter (fun x => raw[y * width + x]? = some 2)).map
            (fun x => posOfNat x y)) := by
  intro ys
  induction ys with
  | nil =>
    intro rows spawns depots h
    simp [buildRows] at h
    obtain ⟨_, h2, h3⟩ := h
    subst h2; subst h3
    simp
  | cons y ys ih =>
    intro rows spawns depots h
    simp only [buildRows, bind, Except.bind] at h
    cases hrow : buildRow raw width y (List.range width) with
    | error e => rw [hrow] at h; cases h
    | ok triple =>
      obtain ⟨row, s1, d1⟩ := triple
      rw [hrow] at h
      simp only at h
      cases hrec : buildRows raw width ys with
      | error e => rw [hrec] at h; cases h
      | ok triple2 =>
        obtain ⟨rows0, s2, d2⟩ := triple2
        rw [hrec] at h
        simp only [Except.ok.injEq, Prod.mk.injEq] at h
        obtain ⟨_, hsp, hdp⟩ := h
        obtain ⟨hs1, hd1⟩ := buildRow_spawns hrow
        obtain ⟨hs2, hd2⟩ := ih hrec
        constructor
        · rw [← hsp, hs1, hs2]
          simp
        · rw [← hdp, hd1, hd2]
          simp

/-- **C7 counterexample**: the `onMap` handler's `switch` has no case
for the codes 4 and 5 — contrary to the claim that 3, 4 and 5 all map
to `Other` — so a map containing the tile code 4 (or 5) hits the
`default` branch and raises the hard error. -/
theorem c7_counterexample_code4 :
    classifyRawTile 4 = .error ()
    ∧ classifyRawTile 5 = .error ()
    ∧ onMapBuild [4] 1 1 = .error ()
    ∧ onMapBuild [0, 1, 2, 3, 5] 5 1 = .error () :=
  ⟨rfl, rfl, rfl, rfl⟩

/-- **C7 (amended)**.  The `onMap` handler maps raw tile type codes as
`0 → Wall`, `1 → Spawn` (appended to `spawnTiles`), `2 → Depot`
(appended to `depotTiles`) and `3 → Other`, and raises a hard error
exactly for any code outside `{0, 1, 2, 3}` — in particular for the
codes 4 and 5.  On success, `spawnTiles` consists exactly of the
positions whose raw code is 1 and `depotTiles` of those whose raw code
is 2, both in row-major scan order. -/
theorem c7_onMap_tile_codes :
    classifyRawTile 0 = .ok TileType.wall
    ∧ classifyRawTile 1 = .ok TileType.spawn
    ∧ classifyRawTile 2 = .ok TileType.depot
    ∧ classifyRawTile 3 = .ok TileType.other
    ∧ (∀ c : Int, c ∉ ([0, 1, 2, 3] : List Int) → classifyRawTile c = .error ())
    ∧ (∀ (raw : List Int) (width height : ℕ) rows spawns depots,
        onMapBuild raw width height = .ok (rows, spawns, depots) →
        spawns = (List.range height).flatMap (fun y =>
            ((List.range width).filter (fun x => raw[y * width + x]? = some 1)).map
              (fun x => posOfNat x y))
        ∧ depots = (List.range height).flatMap (fun y =>
            ((List.range width).filter (fun x => raw[y * width + x]? = some 2)).map
              (fun x => posOfNat x y))) := by
  refine ⟨rfl, rfl, rfl, rfl, ?_, ?_⟩
  · intro c hc
    simp at hc
    unfold classifyRawTile
    simp [hc.1, hc.2.1, hc.2.2.1, hc.2.2.2]
  · intro raw width height rows spawns depots h
    exact buildRows_spawns h

/-- Witness for `c7_onMap_tile_codes`: code 7 is a hard error, and on
the concrete 2×2 map `[1, 2, 0, 3]` the spawn and depot tile lists are
exactly the positions of the codes 1 and 2. -/
theorem c7_onMap_tile_codes_witness :
    classifyRawTile 7 = .error ()
    ∧ ([posOfNat 0 0] = (List.range 2).flatMap (fun y =>
        ((List.range 2).filter (fun x => ([1, 2, 0, 3] : List Int)[y * 2 + x]? = some 1)).map
          (fun x => posOfNat x y))) := by
  constructor
  · exact c7_onMap_tile_codes.2.2.2.2.1 7 (by decide)
  · exact (c7_onMap_tile_codes.2.2.2.2.2 [1, 2, 0, 3] 2 2
      [[(posOfNat 0 0, TileType.spawn), (posOfNat 1 0, TileType.depot)],
       [(posOfNat 0 1, TileType.wall), (posOfNat 1 1, TileType.other)]]
      [posOfNat 0 0] [posOfNat 1 0] rfl).1

/-! ## Intention predicates and the priority sort (C2)

Embedding of `Agent.sortIntentionQueue` (`src/agent/agent.js:422-468`).
Intentions are identified with their predicates (`['go_pick_up', x, y,
id]`, `['go_drop_off', x, y, ...]`, `['go_to', x, y]`); the sort only
reads predicates.  The pickup comparator `(a, b) => a.distance -
b.distance` over possibly-`Infinity` distances is embedded as a stable
insertion sort by `≤` on `ℕ∞` (V8's `Array.prototype.sort` is stable,
and `Infinity - Infinity = NaN` is treated as "equal" by the sort, which
stability also models).  The `multi_pickup` message emitted in
dual-agent mode does not affect the queue and is not modelled here. -/

/-- An intention predicate (the tagged tuples of the source). -/
inductive IntentionPred where
  | pickUp (x y : Int) (id : String)
  | dropOff (x y : Int)
  | goTo (x y : Int)
deriving DecidableEq, Repr

/-- `i.predicate[0] === 'go_pick_up'`. -/
def IntentionPred.isPickUp : IntentionPred → Bool
  | .pickUp .. => true
  | _ => false

/-- `i.predicate[0] === 'go_drop_off'`. -/
def IntentionPred.isDropOff : IntentionPred → Bool
  | .dropOff .. => true
  | _ => false

/-- `i.predicate[0] === 'go_to'`. -/
def IntentionPred.isGoTo : IntentionPred → Bool
  | .goTo .. => true
  | _ => false

/-- The target coordinates `(predicate[1], predicate[2])`. -/
def IntentionPred.target : IntentionPred → Pos
  | .pickUp x y _ => ⟨x, y⟩
  | .dropOff x y => ⟨x, y⟩
  | .goTo x y => ⟨x, y⟩

/-- A* scoring distance: `path != null ? path.length : Infinity`
(`agent.js:437`). -/
def pathDistance (m : MapSnap) (a b : Pos) : ℕ∞ :=
  match findPath m a b with
  | some p => (p.length : ℕ∞)
  | none => ⊤

/-- Stable insertion of a scored intention into a distance-sorted list
(the effect of the stable `sort((a, b) => a.distance - b.distance)`). -/
def orderedInsertByDist (a : IntentionPred × ℕ∞) : List (IntentionPred × ℕ∞) → List (IntentionPred × ℕ∞)
  | [] => [a]
  | b :: l => if a.2 ≤ b.2 then a :: b :: l else b :: orderedInsertByDist a l

/-- Stable sort of scored intentions by ascending distance. -/
def sortByDist : List (IntentionPred × ℕ∞) → List (IntentionPred × ℕ∞)
  | [] => []
  | a :: l => orderedInsertByDist a (sortByDist l)

/-- `Agent.sortIntentionQueue` (`agent.js:422-468`): score the pickups
by A* distance from the agent's position, sort them ascending, keep the
first drop-off and the first go-to, rebuild the queue as
`[sorted pickups…, dropOff?, goTo?]`, and if the carried-parcel count
has reached `MAX_CARRIED_PARCELS`, keep only drop-offs. -/
def sortIntentionQueue (m : MapSnap) (agentPosition : Pos)
    (MAX_CARRIED_PARCELS carriedParcel : ℕ) (queue : List IntentionPred) : List IntentionPred :=
  let distanceMap := (queue.filter (fun i => i.isPickUp)).map
    (fun i => (i, pathDistance m agentPosition i.target))
  let pickUpIntentions := (sortByDist distanceMap).map Prod.fst
  let dropOffIntentions := queue.filter (fun i => i.isDropOff)
  let goToIntentions := queue.filter (fun i => i.isGoTo)
  let rebuilt := pickUpIntentions ++ dropOffIntentions.take 1 ++ goToIntentions.take 1
  if MAX_CARRIED_PARCELS ≤ carriedParcel then
    rebuilt.filter (fun i => i.isDropOff)
  else
    rebuilt

theorem orderedInsertByDist_perm (a : IntentionPred × ℕ∞) (l : List (IntentionPred × ℕ∞)) :
    List.Perm (orderedInsertByDist a l) (a :: l) := by
  induction l with
  | nil => simp [orderedInsertByDist]
  | cons b l ih =>
    by_cases h : a.2 ≤ b.2
    · simp [orderedInsertByDist, h]
    · simp only [orderedInsertByDist, if_neg h]
      exact List.Perm.trans (List.Perm.cons _ ih) (List.Perm.swap _ _ _)

theorem sortByDist_perm (l : List (IntentionPred × ℕ∞)) : List.Perm (sortByDist l) l := by
  induction l with
  | nil => simp [sortByDist]
  | cons a l ih =>
    exact List.Perm.trans (orderedInsertByDist_perm a _) (List.Perm.cons _ ih)

theorem orderedInsertByDist_sorted (a : IntentionPred × ℕ∞) (l : List (IntentionPred × ℕ∞))
    (h : l.Pairwise (fun x y => x.2 ≤ y.2)) :
    (orderedInsertByDist a l).Pairwise (fun x y => x.2 ≤ y.2) := by
  induction l with
  | nil => simp [orderedInsertByDist]
  | cons b l ih =>
    by_cases hab : a.2 ≤ b.2
    · simp only [orderedInsertByDist, if_pos hab]
      rw [List.pairwise_cons]
      refine ⟨?_, h⟩
      intro y hy
      rcases List.mem_cons.1 hy with hy | hy
      · subst hy; exact hab
      · exact le_trans hab ((List.pairwise_cons.1 h).1 y hy)
    · simp only [orderedInsertByDist, if_neg hab]
      rw [List.pairwise_cons] at h ⊢
      obtain ⟨hb, hl⟩ := h
      refine ⟨?_, ih hl⟩
      intro y hy
      have hmem := (orderedInsertByDist_perm a l).mem_iff.1 hy
      rcases List.mem_cons.1 hmem with hy' | hy'
      · subst hy'; exact le_of_not_le hab
      · exact hb y hy'

theorem sortByDist_sorted (l : List (IntentionPred × ℕ∞)) :
    (sortByDist l).Pairwise (fun x y => x.2 ≤ y.2) := by
  induction l with
  | nil => simp [sortByDist]
  | cons a l ih => exact orderedInsertByDist_sorted a _ ih

theorem mem_take_one_head {α : Type} {a : α} {l : List α}
    (h : a ∈ l.take 1) : l.head? = some a := by
  cases l with
  | nil => simp at h
  | cons x xs =>
    simp at h
    subst h
    rfl

theorem IntentionPred.not_dropOff_of_pickUp {i : IntentionPred}
    (h : i.isPickUp = true) : i.isDropOff = false := by
  cases i <;> simp_all [IntentionPred.isPickUp, IntentionPred.isDropOff]

theorem IntentionPred.not_goTo_of_pickUp {i : IntentionPred}
    (h : i.isPickUp = true) : i.isGoTo = false := by
  cases i <;> simp_all [IntentionPred.isPickUp, IntentionPred.isGoTo]

theorem IntentionPred.not_pickUp_of_dropOff {i : IntentionPred}
    (h : i.isDropOff = true) : i.isPickUp = false := by
  cases i <;> simp_all [IntentionPred.isPickUp, IntentionPred.isDropOff]

theorem IntentionPred.not_pickUp_of_goTo {i : IntentionPred}
    (h : i.isGoTo = true) : i.isPickUp = false := by
  cases i <;> simp_all [IntentionPred.isPickUp, IntentionPred.isGoTo]

theorem IntentionPred.not_dropOff_of_goTo {i : IntentionPred}
    (h : i.isGoTo = true) : i.isDropOff = false := by
  cases i <;> simp_all [IntentionPred.isDropOff, IntentionPred.isGoTo]

theorem IntentionPred.not_goTo_of_dropOff {i : IntentionPred}
    (h : i.isDropOff = true) : i.isGoTo = false := by
  cases i <;> simp_all [IntentionPred.isDropOff, IntentionPred.isGoTo]

theorem mem_sortByDist_key {m : MapSnap} {pos : Pos} {queue : List IntentionPred}
    {pr : IntentionPred × ℕ∞}
    (h : pr ∈ sortByDist ((queue.filter (fun i => i.isPickUp)).map
      (fun i => (i, pathDistance m pos i.target)))) :
    pr.2 = pathDistance m pos pr.1.target ∧ pr.1.isPickUp = true := by
  have hmem := (sortByDist_perm _).mem_iff.1 h
  obtain ⟨j, hj, hpr⟩ := List.mem_map.1 hmem
  subst hpr
  exact ⟨rfl, (List.mem_filter.1 hj).2⟩

theorem pairwise_pickup_all {l : List IntentionPred}
    (h : ∀ a ∈ l, a.isPickUp = true) :
    l.Pairwise (fun a b => b.isPickUp = true → a.isPickUp = true) := by
  induction l with
  | nil => simp
  | cons x xs ih =>
    rw [List.pairwise_cons]
    exact ⟨fun b _ _ => h x (List.mem_cons_self _ _),
      ih (fun a ha => h a (List.mem_cons_of_mem _ ha))⟩

theorem pairwise_pickup_none {l : List IntentionPred}
    (h : ∀ a ∈ l, a.isPickUp = false) :
    l.Pairwise (fun a b => b.isPickUp = true → a.isPickUp = true) := by
  induction l with
  | nil => simp
  | cons x xs ih =>
    rw [List.pairwise_cons]
    refine ⟨fun b hb hpb => ?_, ih (fun a ha => h a (List.mem_cons_of_mem _ ha))⟩
    rw [h b (List.mem_cons_of_mem _ hb)] at hpb
    cases hpb

/-- **C2**.  After `sortIntentionQueue` the queue contains at most one
`go_drop_off` element and at most one `go_to` element, and each one is
the first of its partition in the pre-sort queue; every `go_pick_up`
element precedes every non-pickup element; the pickups are ordered by
non-decreasing A* path length from the agent position at sort time
(`⊤`, i.e. `Infinity`, when no path exists); and if
`carriedParcelCount ≥ MAX_CARRIED_PARCELS` the resulting queue contains
only `go_drop_off` elements. -/
theorem c2_sortIntentionQueue (m : MapSnap) (agentPosition : Pos)
    (MAX_CARRIED_PARCELS carriedParcel : ℕ) (queue : List IntentionPred) :
    ∀ q', q' = sortIntentionQueue m agentPosition MAX_CARRIED_PARCELS carriedParcel queue →
      (q'.filter (fun i => i.isDropOff)).length ≤ 1
      ∧ (q'.filter (fun i => i.isGoTo)).length ≤ 1
      ∧ (∀ d ∈ q', d.isDropOff = true →
          (queue.filter (fun i => i.isDropOff)).head? = some d)
      ∧ (∀ g ∈ q', g.isGoTo = true →
          (queue.filter (fun i => i.isGoTo)).head? = some g)
      ∧ q'.Pairwise (fun a b => b.isPickUp = true → a.isPickUp = true)
      ∧ ((q'.filter (fun i => i.isPickUp)).map
          (fun i => pathDistance m agentPosition i.target)).Pairwise (· ≤ ·)
      ∧ (MAX_CARRIED_PARCELS ≤ carriedParcel → ∀ i ∈ q', i.isDropOff = true) := by
  intro q' hq'
  unfold sortIntentionQueue at hq'
  simp only at hq'
  set Pl := (sortByDist ((queue.filter (fun i => i.isPickUp)).map
    (fun i => (i, pathDistance m agentPosition i.target)))).map Prod.fst with hPldef
  set D1 := (queue.filter (fun i => i.isDropOff)).take 1 with hD1def
  set G1 := (queue.filter (fun i => i.isGoTo)).take 1 with hG1def
  have hPmem : ∀ i ∈ Pl, i.isPickUp = true := by
    intro i hi
    rw [hPldef] at hi
    obtain ⟨pr, hpr, hi⟩ := List.mem_map.1 hi
    subst hi
    exact (mem_sortByDist_key hpr).2
  have hD1m : ∀ i ∈ D1, i.isDropOff = true := by
    intro i hi
    rw [hD1def] at hi
    have := List.take_subset 1 _ hi
    exact (List.mem_filter.1 this).2
  have hG1m : ∀ i ∈ G1, i.isGoTo = true := by
    intro i hi
    rw [hG1def] at hi
    have := List.take_subset 1 _ hi
    exact (List.mem_filter.1 this).2
  have hmem_rebuilt : ∀ i ∈ q', i ∈ Pl ∨ i ∈ D1 ∨ i ∈ G1 := by
    intro i hi
    rw [hq'] at hi
    by_cases hsat : MAX_CARRIED_PARCELS ≤ carriedParcel
    · rw [if_pos hsat] at hi
      have h2 := List.mem_of_mem_filter hi
      rcases List.mem_append.1 h2 with h3 | h3
      · rcases List.mem_append.1 h3 with h4 | h4
        · exact Or.inl h4
        · exact Or.inr (Or.inl h4)
      · exact Or.inr (Or.inr h3)
    · rw [if_neg hsat] at hi
      rcases List.mem_append.1 hi with h3 | h3
      · rcases List.mem_append.1 h3 with h4 | h4
        · exact Or.inl h4
        · exact Or.inr (Or.inl h4)
      · exact Or.inr (Or.inr h3)
  have hPd : Pl.filter (fun i => i.isDropOff) = [] :=
    List.filter_eq_nil.2 (fun a ha => by
      simp [IntentionPred.not_dropOff_of_pickUp (hPmem a ha)])
  have hPg : Pl.filter (fun i => i.isGoTo) = [] :=
    List.filter_eq_nil.2 (fun a ha => by
      simp [IntentionPred.not_goTo_of_pickUp (hPmem a ha)])
  have hPp : Pl.filter (fun i => i.isPickUp) = Pl := List.filter_eq_self.2 hPmem
  have hDd : D1.filter (fun i => i.isDropOff) = D1 := List.filter_eq_self.2 hD1m
  have hDg : D1.filter (fun i => i.isGoTo) = [] :=
    List.filter_eq_nil.2 (fun a ha => by
      simp [IntentionPred.not_goTo_of_dropOff (hD1m a ha)])
  have hDp : D1.filter (fun i => i.isPickUp) = [] :=
    List.filter_eq_nil.2 (fun a ha => by
      simp [IntentionPred.not_pickUp_of_dropOff (hD1m a ha)])
  have hGd : G1.filter (fun i => i.isDropOff) = [] :=
    List.filter_eq_nil.2 (fun a ha => by
      simp [IntentionPred.not_dropOff_of_goTo (hG1m a ha)])
  have hGg : G1.filter (fun i => i.isGoTo) = G1 := List.filter_eq_self.2 hG1m
  have hGp : G1.filter (fun i => i.isPickUp) = [] :=
    List.filter_eq_nil.2 (fun a ha => by
      simp [IntentionPred.not_pickUp_of_goTo (hG1m a ha)])
  have hRd : (Pl ++ D1 ++ G1).filter (fun i => i.isDropOff) = D1 := by
    rw [List.filter_append, List.filter_append, hPd, hDd, hGd]
    simp
  have hRg : (Pl ++ D1 ++ G1).filter (fun i => i.isGoTo) = G1 := by
    rw [List.filter_append, List.filter_append, hPg, hDg, hGg]
    simp
  have hRp : (Pl ++ D1 ++ G1).filter (fun i => i.isPickUp) = Pl := by
    rw [List.filter_append, List.filter_append, hPp, hDp, hGp]
    simp
  have hD1len : D1.length ≤ 1 := by
    rw [hD1def, List.length_take]
    exact min_le_left _ _
  have hG1len : G1.length ≤ 1 := by
    rw [hG1def, List.length_take]
    exact min_le_left _ _
  refine ⟨?_, ?_, ?_, ?_, ?_, ?_, ?_⟩
  · -- at most one drop-off
    by_cases hsat : MAX_CARRIED_PARCELS ≤ carriedParcel
    · rw [hq', if_pos hsat, List.filter_filter]
      have hbb : (fun (a : IntentionPred) => a.isDropOff && a.isDropOff)
          = fun a => a.isDropOff := by
        funext a; cases a.isDropOff <;> rfl
      rw [hbb, hRd]
      exact hD1len
    · rw [hq', if_neg hsat, hRd]
      exact hD1len
  · -- at most one go-to
    by_cases hsat : MAX_CARRIED_PARCELS ≤ carriedParcel
    · rw [hq', if_pos hsat, hRd, hDg]
      simp
    · rw [hq', if_neg hsat, hRg]
      exact hG1len
  · -- the drop-off kept is the first of its partition
    intro d hd hdrop
    rcases hmem_rebuilt d hd with h | h | h
    · rw [IntentionPred.not_dropOff_of_pickUp (hPmem d h)] at hdrop; cases hdrop
    · exact mem_take_one_head (hD1def ▸ h)
    · rw [IntentionPred.not_dropOff_of_goTo (hG1m d h)] at hdrop; cases hdrop
  · -- the go-to kept is the first of its partition
    intro g hg hgo
    rcases hmem_rebuilt g hg with h | h | h
    · rw [IntentionPred.not_goTo_of_pickUp (hPmem g h)] at hgo; cases hgo
    · rw [IntentionPred.not_goTo_of_dropOff (hD1m g h)] at hgo; cases hgo
    · exact mem_take_one_head (hG1def ▸ h)
  · -- pickups precede drop-off and go-to elements
    by_cases hsat : MAX_CARRIED_PARCELS ≤ carriedParcel
    · rw [hq', if_pos hsat, hRd]
      exact pairwise_pickup_none
        (fun a ha => IntentionPred.not_pickUp_of_dropOff (hD1m a ha))
    · rw [hq', if_neg hsat]
      rw [List.pairwise_append]
      refine ⟨?_, ?_, ?_⟩
      · rw [List.pairwise_append]
        refine ⟨pairwise_pickup_all hPmem,
          pairwise_pickup_none
            (fun a ha => IntentionPred.not_pickUp_of_dropOff (hD1m a ha)), ?_⟩
        intro a ha b _ _
        exact hPmem a ha
      · exact pairwise_pickup_none
          (fun a ha => IntentionPred.not_pickUp_of_goTo (hG1m a ha))
      · intro a ha b hb hpb
        rw [IntentionPred.not_pickUp_of_goTo (hG1m b hb)] at hpb
        cases hpb
  · -- pickups sorted by non-decreasing distance
    by_cases hsat : MAX_CARRIED_PARCELS ≤ carriedParcel
    · rw [hq', if_pos hsat, hRd, hDp]
      simp
    · rw [hq', if_neg hsat, hRp, hPldef, List.map_map, List.pairwise_map]
      refine List.Pairwise.imp_of_mem ?_ (sortByDist_sorted _)
      intro a b ha hb hab
      have hka := (mem_sortByDist_key ha).1
      have hkb := (mem_sortByDist_key hb).1
      simp only [Function.comp]
      rw [← hka, ← hkb]
      exact hab
  · -- saturation keeps only drop-offs
    intro hsat i hi
    rw [hq', if_pos hsat] at hi
    exact (List.mem_filter.1 hi).2

/-- Witness for `c2_sortIntentionQueue`: on a concrete 2-tile map with a
mixed queue, the saturation hypothesis (`4 ≤ 4`) is discharged and the
resulting queue is drop-off only; and at `carriedParcel = 0` the sort
orders the on-tile pickup (distance 0) before the distance-1 pickup,
keeping one drop-off and one go-to. -/
theorem c2_sortIntentionQueue_witness :
    (∀ i ∈ sortIntentionQueue ⟨2, 1, [⟨0, 0⟩, ⟨1, 0⟩], [], []⟩ ⟨0, 0⟩ 4 4
        [IntentionPred.pickUp 1 0 "P1", IntentionPred.dropOff 1 0,
         IntentionPred.goTo 0 0, IntentionPred.pickUp 0 0 "P2",
         IntentionPred.dropOff 0 0], i.isDropOff = true)
    ∧ sortIntentionQueue ⟨2, 1, [⟨0, 0⟩, ⟨1, 0⟩], [], []⟩ ⟨0, 0⟩ 4 0
        [IntentionPred.pickUp 1 0 "P1", IntentionPred.dropOff 1 0,
         IntentionPred.goTo 0 0, IntentionPred.pickUp 0 0 "P2",
         IntentionPred.dropOff 0 0]
      = [IntentionPred.pickUp 0 0 "P2", IntentionPred.pickUp 1 0 "P1",
         IntentionPred.dropOff 1 0, IntentionPred.goTo 0 0] :=
  ⟨(c2_sortIntentionQueue ⟨2, 1, [⟨0, 0⟩, ⟨1, 0⟩], [], []⟩ ⟨0, 0⟩ 4 4
      [IntentionPred.pickUp 1 0 "P1", IntentionPred.dropOff 1 0,
       IntentionPred.goTo 0 0, IntentionPred.pickUp 0 0 "P2",
       IntentionPred.dropOff 0 0] _ rfl).2.2.2.2.2.2 (by decide),
   by decide⟩

/-! ## GoDropOff plan execution (C3)

Embedding of `GoDropOff.execute` (`src/planner/plans/go-drop-off.js:70-104`)
for a run in which the plan is never stopped (cancellation is the
subject of C4).  Two points where the source diverges from the spec:

* line 81 reads
  `const {agentX, agentY} = await agent.getCurrentPosition();`
  but `getCurrentPosition` resolves to an `{x, y}` record, which has no
  `agentX`/`agentY` fields — both constants are `undefined`, so the
  "already on the right tile" comparison on line 82 can never be true
  (compare `GoPickUp.execute`, `go-pick-up.js:77`, which destructures
  `{x: agentX, y: agentY}` correctly);
* no call to `agent.dropAllParcels()` exists in `GoDropOff.execute` (or
  anywhere else in the repository), although `Agent.dropAllParcels`
  (`agent.js:784-786`) exists and its documentation says it is "used
  when the agent drops off a parcel"; the carried-parcel counter is
  therefore never reset. -/

/-- Externally visible effects of `GoDropOff.execute`. -/
inductive DropEvent where
  | subIntentionGoTo (x y : Int)
  | putdown
  | dropAllParcels
deriving DecidableEq, Repr

/-- JavaScript `===` between a destructured-but-missing field
(`undefined`) and a number: always false. -/
def jsUndefinedEqInt (_n : Int) : Bool := false

/-- `GoDropOff.execute(predicate)` with `stopped = false` throughout:
the event trace (in order) and the success flag.  The on-tile branch
guard is `agentX === x && agentY === y` with `agentX`/`agentY` both
`undefined` (see the section comment), so the guard is the conjunction
of two `jsUndefinedEqInt` comparisons. -/
def goDropOffExecute (agentPos : Pos) (x y : Int) : List DropEvent × Bool :=
  if jsUndefinedEqInt x && jsUndefinedEqInt y then
    ([DropEvent.putdown], true)
  else
    ([DropEvent.subIntentionGoTo x y, DropEvent.putdown], true)

/-- The carried-parcel counter after applying a `GoDropOff` event trace:
only a `dropAllParcels` event resets it (`Agent.dropAllParcels`,
`agent.js:784-786`). -/
def carriedAfter (carried : ℕ) (events : List DropEvent) : ℕ :=
  events.foldl (fun c e =>
    match e with
    | DropEvent.dropAllParcels => 0
    | _ => c) carried

/-- **C3** (code bug).  Failing input: the agent already stands on the
drop-off tile `(2, 2)` carrying 3 parcels and executes
`go_drop_off(2, 2)`.  The claim says the putdown is issued immediately
with no `go_to` sub-intention and that `dropAllParcels` resets the
carried count to 0.  The code instead raises the `go_to(2, 2)`
sub-intention (the on-tile check compares `undefined` with 2), and
never calls `dropAllParcels`, leaving the carried count at 3.  The
`agentPos` argument is irrelevant to the result — the position read is
broken — which this theorem also records. -/
theorem c3_goDropOff_divergence :
    goDropOffExecute ⟨2, 2⟩ 2 2
      = ([DropEvent.subIntentionGoTo 2 2, DropEvent.putdown], true)
    ∧ DropEvent.dropAllParcels ∉ (goDropOffExecute ⟨2, 2⟩ 2 2).1
    ∧ carriedAfter 3 (goDropOffExecute ⟨2, 2⟩ 2 2).1 = 3
    ∧ (∀ p q : Pos, goDropOffExecute p 2 2 = goDropOffExecute q 2 2) :=
  ⟨rfl, by decide, rfl, fun p q => rfl⟩

/-! ## GoTo execution and cancellation (C4)

Embedding of one activation of `GoTo.execute`
(`src/planner/plans/go-to.js:63-129`) under cooperative cancellation.
The process is single-threaded: `stop()` (`plan.js:67-74`, cascaded from
`Intention.stop`, `intention.js:102-107`) can only run while the plan is
suspended at an `await`.  We count completed suspensions and model a
stop arriving during suspension number `stopAt` (`stopAt = 0`: the flag
is set before the activation starts); a `stopped` check performed after
`s` suspensions have completed reads `true` iff `stopAt ≤ s`.
Consecutive suspensions with no RPC between them are collapsed into one
(this loses no behaviour visible in the RPC trace: the pathfinder
performs several awaits but issues no RPCs).

Await points: `getCurrentPosition` (suspension 1), `#findPath`
(suspension 2), then per path step: the `stopped` check (`go-to.js:86`),
`getCurrentPosition` (one suspension), the first `emitMove` — the RPC is
issued, then its response is awaited (one suspension) — and on failure
the 10 ms `setTimeout` (one suspension) followed by the second
`emitMove` (one suspension).  There is *no* `stopped` check between the
two attempts (`go-to.js:110-120`); after two failures the plan
re-executes itself (`return this.execute(predicate)`, line 125),
modelled as a terminal `replan` event. -/

/-- RPC-level events of a `GoTo` activation.  A `move` event records the
path-step index it belongs to and whether the `stopped` flag was
already set when the RPC was issued. -/
inductive GoEvent where
  | move (step : ℕ) (postStop : Bool)
  | replan (postStop : Bool)
deriving DecidableEq, Repr

/-- Outcome of a `GoTo` activation. -/
inductive GoOutcome where
  | success
  | stoppedThrow
  | noPathThrow
  | replanned
deriving DecidableEq, Repr

/-- Is the `stopped` flag set after `s` completed suspensions, when the
stop arrives during suspension `stopAt`? -/
def stoppedAt (stopAt s : ℕ) : Bool := stopAt ≤ s

/-- Whether an event is an RPC issued after the stop. -/
def GoEvent.isPostStopMove : GoEvent → Bool
  | .move _ true => true
  | _ => false

/-- The `for (const {x, y} of path)` loop (`go-to.js:85-127`): `s` is
the number of completed suspensions, `k` the index into the
move-result stream `moveOk`, `i` the current path-step index. -/
def runSteps (stopAt : ℕ) (moveOk : ℕ → Bool) :
    List Pos → ℕ → ℕ → ℕ → List GoEvent × GoOutcome
  | [], _, _, _ => ([], GoOutcome.success)
  | _ :: ps, s, k, i =>
    if stoppedAt stopAt s then ([], GoOutcome.stoppedThrow)
    else
      let s1 := s + 1
      let e0 := GoEvent.move i (stoppedAt stopAt s1)
      if moveOk k then
        let rest := runSteps stopAt moveOk ps (s1 + 1) (k + 1) (i + 1)
        (e0 :: rest.1, rest.2)
      else
        let e1 := GoEvent.move i (stoppedAt stopAt (s1 + 2))
        if moveOk (k + 1) then
          let rest := runSteps stopAt moveOk ps (s1 + 3) (k + 2) (i + 1)
          (e0 :: e1 :: rest.1, rest.2)
        else
          ([e0, e1, GoEvent.replan (stoppedAt stopAt (s1 + 3))],
            GoOutcome.replanned)

/-- One activation of `GoTo.execute` (`go-to.js:63-129`): await the
current position and the A* query, then follow the path.  `path` is the
`#findPath` result (characterised by C1). -/
def goToExecute (stopAt : ℕ) (moveOk : ℕ → Bool) (path : Option (List Pos)) :
    List GoEvent × GoOutcome :=
  match path with
  | none => ([], GoOutcome.noPathThrow)
  | some [] => ([], GoOutcome.success)
  | some ps => runSteps stopAt moveOk ps 2 0 0

/-- **C4 counterexample**: with a one-step path whose first move attempt
fails, a `stop()` arriving during the 10 ms sleep between the two move
retries (suspension 4) is followed by the second `emitMove` — an RPC
issued after `intention.stop()` — because `GoTo` does not re-check the
`stopped` flag between its two attempts.  This falsifies both the
claim's "no further emitMove after stop()" and its "GoTo checks the
stopped flag … between the two move retries". -/
theorem c4_counterexample_move_after_stop :
    GoEvent.move 0 true ∈ (goToExecute 4 (fun _ => false) (some [⟨0, 1⟩])).1
    ∧ (goToExecute 4 (fun _ => false) (some [⟨0, 1⟩])).1
      = [GoEvent.move 0 false, GoEvent.move 0 true, GoEvent.replan true] := by
  constructor
  · decide
  · decide

theorem runSteps_stopped {stopAt : ℕ} {moveOk : ℕ → Bool} {ps : List Pos}
    {s k i : ℕ} (h : stopAt ≤ s) :
    (runSteps stopAt moveOk ps s k i).1 = [] := by
  cases ps with
  | nil => rfl
  | cons p ps =>
    have hb : stoppedAt stopAt s = true := by simp [stoppedAt, h]
    simp [runSteps, hb]

theorem runSteps_postStop (stopAt : ℕ) (moveOk : ℕ → Bool) :
    ∀ (ps : List Pos) (s k i : ℕ),
      (∃ j, ∀ i' b, GoEvent.move i' b ∈ (runSteps stopAt moveOk ps s k i).1 →
        b = true → i' = j)
      ∧ ((runSteps stopAt moveOk ps s k i).1.filter GoEvent.isPostStopMove).length ≤ 2 := by
  intro ps
  induction ps with
  | nil =>
    intro s k i
    refine ⟨⟨0, ?_⟩, ?_⟩
    · intro i' b h
      simp [runSteps] at h
    · simp [runSteps]
  | cons p ps ih =>
    intro s k i
    by_cases hstop : stopAt ≤ s
    · have hb : stoppedAt stopAt s = true := by simp [stoppedAt, hstop]
      refine ⟨⟨0, ?_⟩, ?_⟩
      · intro i' b h
        simp [runSteps, hb] at h
      · simp [runSteps, hb]
    · have hb : stoppedAt stopAt s = false := by simp [stoppedAt, hstop]
      by_cases hm0 : moveOk k = true
      · by_cases hb0 : stopAt ≤ s + 1
        · -- stop arrived during getCurrentPosition: the emitMove of this
          -- step is post-stop; the next step's check throws immediately
          have hrest : (runSteps stopAt moveOk ps (s + 1 + 1) (k + 1) (i + 1)).1 = [] :=
            runSteps_stopped (le_trans hb0 (Nat.le_succ _))
          have hflag : stoppedAt stopAt (s + 1) = true := by simp [stoppedAt, hb0]
          have hstep : (runSteps stopAt moveOk (p :: ps) s k i).1
              = [GoEvent.move i true] := by
            simp [runSteps, hb, hflag, hm0, hrest]
          refine ⟨⟨i, ?_⟩, ?_⟩
          · intro i' b h
            rw [hstep] at h
            simp only [List.mem_singleton] at h
            intro hbt
            rw [hbt] at h
            exact (GoEvent.move.injEq .. ▸ h).1
          · rw [hstep]
            simp [GoEvent.isPostStopMove]
        · have hflag : stoppedAt stopAt (s + 1) = false := by simp [stoppedAt, hb0]
          obtain ⟨⟨j, hj⟩, hlen⟩ := ih (s + 1 + 1) (k + 1) (i + 1)
          have hstep : (runSteps stopAt moveOk (p :: ps) s k i).1
              = GoEvent.move i false ::
                (runSteps stopAt moveOk ps (s + 1 + 1) (k + 1) (i + 1)).1 := by
            simp [runSteps, hb, hflag, hm0]
          refine ⟨⟨j, ?_⟩, ?_⟩
          · intro i' b h
            rw [hstep] at h
            rcases List.mem_cons.1 h with h | h
            · intro hbt
              rw [hbt] at h
              have := (GoEvent.move.injEq .. ▸ h).2
              cases this
            · exact hj i' b h
          · rw [hstep, List.filter_cons]
            simp only [GoEvent.isPostStopMove]
            exact hlen
      · by_cases hm1 : moveOk (k + 1) = true
        · by_cases hb1 : stopAt ≤ s + 1 + 2
          · have hrest : (runSteps stopAt moveOk ps (s + 1 + 3) (k + 2) (i + 1)).1 = [] :=
              runSteps_stopped (le_trans hb1 (by omega))
            have hstep : (runSteps stopAt moveOk (p :: ps) s k i).1
                = [GoEvent.move i (stoppedAt stopAt (s + 1)),
                   GoEvent.move i (stoppedAt stopAt (s + 1 + 2))] := by
              simp [runSteps, hb, hm0, hm1, hrest]
            refine ⟨⟨i, ?_⟩, ?_⟩
            · intro i' b h
              rw [hstep] at h
              rcases List.mem_cons.1 h with h | h
              · intro _
                exact (GoEvent.move.injEq .. ▸ h).1
              · simp only [List.mem_singleton] at h
                intro _
                exact (GoEvent.move.injEq .. ▸ h).1
            · rw [hstep, List.filter_cons, List.filter_cons]
              simp only [GoEvent.isPostStopMove, List.filter_nil]
              cases h1 : stoppedAt stopAt (s + 1) <;>
                cases h2 : stoppedAt stopAt (s + 1 + 2) <;> simp
          · have hflag0 : stoppedAt stopAt (s + 1) = false := by
              simp only [stoppedAt, decide_eq_false_iff_not]
              omega
            have hflag1 : stoppedAt stopAt (s + 1 + 2) = false := by
              simp [stoppedAt, hb1]
            obtain ⟨⟨j, hj⟩, hlen⟩ := ih (s + 1 + 3) (k + 2) (i + 1)
            have hstep : (runSteps stopAt moveOk (p :: ps) s k i).1
                = GoEvent.move i false :: GoEvent.move i false ::
                  (runSteps stopAt moveOk ps (s + 1 + 3) (k + 2) (i + 1)).1 := by
              simp [runSteps, hb, hm0, hm1, hflag0, hflag1]
            refine ⟨⟨j, ?_⟩, ?_⟩
            · intro i' b h
              rw [hstep] at h
              rcases List.mem_cons.1 h with h | h
              · intro hbt
                rw [hbt] at h
                have := (GoEvent.move.injEq .. ▸ h).2
                cases this
              · rcases List.mem_cons.1 h with h | h
                · intro hbt
                  rw [hbt] at h
                  have := (GoEvent.move.injEq .. ▸ h).2
                  cases this
                · exact hj i' b h
            · rw [hstep, List.filter_cons, List.filter_cons]
              simp only [GoEvent.isPostStopMove]
              exact hlen
        · have hstep : (runSteps stopAt moveOk (p :: ps) s k i).1
              = [GoEvent.move i (stoppedAt stopAt (s + 1)),
                 GoEvent.move i (stoppedAt stopAt (s + 1 + 2)),
                 GoEvent.replan (stoppedAt stopAt (s + 1 + 3))] := by
            simp [runSteps, hb, hm0, hm1]
          refine ⟨⟨i, ?_⟩, ?_⟩
          · intro i' b h
            rw [hstep] at h
            rcases List.mem_cons.1 h with h | h
            · intro _
              exact (GoEvent.move.injEq .. ▸ h).1
            · rcases List.mem_cons.1 h with h | h
              · intro _
                exact (GoEvent.move.injEq .. ▸ h).1
              · simp only [List.mem_singleton] at h
                intro _
                cases h
          · rw [hstep, List.filter_cons, List.filter_cons, List.filter_cons]
            simp only [GoEvent.isPostStopMove, List.filter_nil]
            cases h1 : stoppedAt stopAt (s + 1) <;>
              cases h2 : stoppedAt stopAt (s + 1 + 2) <;> simp

/-- **C4 (amended)**.  `GoTo` checks the `stopped` flag only before each
path step, not between the two move retries.  What the code guarantees
after `intention.stop()` is therefore: a stop set before the first
step's check yields no RPC at all from the activation (in particular a
replanning re-entry after the stop emits nothing); every `emitMove`
issued after the stop belongs to the single path step that was already
in flight when the stop arrived; and at most the two move attempts of
that step (no later step, pickup, putdown or sub-intention RPC) can
still be issued after the stop. -/
theorem c4_goTo_stop_amended (stopAt : ℕ) (moveOk : ℕ → Bool)
    (path : Option (List Pos)) :
    (stopAt ≤ 2 → (goToExecute stopAt moveOk path).1 = [])
    ∧ (∃ j, ∀ i b, GoEvent.move i b ∈ (goToExecute stopAt moveOk path).1 →
        b = true → i = j)
    ∧ ((goToExecute stopAt moveOk path).1.filter GoEvent.isPostStopMove).length ≤ 2 := by
  cases path with
  | none =>
    refine ⟨fun _ => rfl, ⟨0, ?_⟩, ?_⟩
    · intro i b h; simp [goToExecute] at h
    · simp [goToExecute]
  | some ps =>
    cases ps with
    | nil =>
      refine ⟨fun _ => rfl, ⟨0, ?_⟩, ?_⟩
      · intro i b h; simp [goToExecute] at h
      · simp [goToExecute]
    | cons p ps =>
      refine ⟨?_, ?_, ?_⟩
      · intro h2
        exact runSteps_stopped h2
      · exact (runSteps_postStop stopAt moveOk (p :: ps) 2 0 0).1
      · exact (runSteps_postStop stopAt moveOk (p :: ps) 2 0 0).2

/-- Witness for `c4_goTo_stop_amended`: with the stop already set before
the activation starts (`stopAt = 0 ≤ 2`), a one-step path emits no RPC
at all. -/
theorem c4_goTo_stop_amended_witness :
    (goToExecute 0 (fun _ => true) (some [⟨0, 1⟩])).1 = [] :=
  (c4_goTo_stop_amended 0 (fun _ => true) (some [⟨0, 1⟩])).1 (by decide)

/-! ## Companion-position handling and role election (C6)

Embedding of `Agent.#handleCompanionPositionMessage`
(`src/agent/agent.js:669-717`) for a well-formed `companion_position`
message.  The handler first stores the companion position in the map
and then, on the leader and only before initialisation, runs the role
election using `#checkIfCanDeliver` (`agent.js:496-508`) and
`#checkIfCanGather` (`agent.js:514-526`); the map snapshot `m` passed
below is the post-update snapshot the reachability checks read.
`getDepotTilesAsync`/`getSpawnTilesAsync` block until the respective
lists are non-empty, which the election theorem takes as hypotheses. -/

/-- `Hand2HandBehaviour` (`agent.js:228-232`). -/
inductive H2H where
  | none
  | deliver
  | gather
deriving DecidableEq, Repr

/-- Messages emitted to the companion via `emitSay`. -/
inductive OutMsg where
  | hand2hand (behavior : H2H)
  | deliveryTileSet (x y : Int)
deriving DecidableEq, Repr

/-- The agent-state fields the coordination handlers read and write. -/
structure AgentSt where
  x : Int
  y : Int
  isLeader : Bool
  initialized : Bool
  hand2HandMode : H2H
deriving DecidableEq, Repr

/-- `Agent.#checkIfCanDeliver`: the first depot tile with a non-null A*
path from the agent's position. -/
def checkIfCanDeliver (m : MapSnap) (agentPosition : Pos) : Option Pos :=
  m.depotTiles.find? (fun depot => (findPath m agentPosition depot).isSome)

/-- `Agent.#checkIfCanGather`: the first spawn tile with a non-null A*
path from the agent's position. -/
def checkIfCanGather (m : MapSnap) (agentPosition : Pos) : Option Pos :=
  m.spawnTiles.find? (fun spawn => (findPath m agentPosition spawn).isSome)

/-- `Agent.#handleCompanionPositionMessage` (`agent.js:669-717`) for a
message with `action = 'companion_position'` and a present `position`
(the position itself only updates the map, which `m` reflects): if
`Config.DUAL_AGENT && !initialized && isLeader`, elect roles — no
reachable depot ⟹ tell the companion to deliver and become the
gatherer; no reachable spawn ⟹ tell the companion to gather and become
the deliverer; otherwise send `behavior: 'none'` — and set
`initialized` in every branch. -/
def handleCompanionPositionMessage (dualAgent : Bool) (m : MapSnap)
    (st : AgentSt) (_position : Pos) : AgentSt × List OutMsg :=
  if dualAgent && !st.initialized && st.isLeader then
    match checkIfCanDeliver m ⟨st.x, st.y⟩ with
    | none =>
      ({ st with hand2HandMode := H2H.gather, initialized := true },
        [OutMsg.hand2hand H2H.deliver])
    | some _ =>
      match checkIfCanGather m ⟨st.x, st.y⟩ with
      | none =>
        ({ st with hand2HandMode := H2H.deliver, initialized := true },
          [OutMsg.hand2hand H2H.gather])
      | some _ =>
        ({ st with initialized := true }, [OutMsg.hand2hand H2H.none])
  else
    (st, [])

/-- **C6**.  On the leader, the first `companion_position` message (the
agent not yet initialised, in dual-agent mode, depot and spawn lists
populated — the reachability checks block otherwise) triggers role
election: if no depot is reachable it sends `hand2hand{behavior:
deliver}` and sets its own mode to `Gather`; else if no spawn tile is
reachable it sends `hand2hand{behavior: gather}` and sets its own mode
to `Deliver`; otherwise it sends `hand2hand{behavior: none}` and keeps
mode `None`; and in every branch `initialized` becomes true. -/
theorem c6_companion_position_election (m : MapSnap) (st : AgentSt)
    (position : Pos)
    (hLead : st.isLeader = true) (hInit : st.initialized = false)
    (hMode : st.hand2HandMode = H2H.none)
    (hDep : m.depotTiles ≠ []) (hSpawn : m.spawnTiles ≠ []) :
    (handleCompanionPositionMessage true m st position).1.initialized = true
    ∧ ((∀ d ∈ m.depotTiles, findPath m ⟨st.x, st.y⟩ d = none) →
        (handleCompanionPositionMessage true m st position).2
          = [OutMsg.hand2hand H2H.deliver]
        ∧ (handleCompanionPositionMessage true m st position).1.hand2HandMode
          = H2H.gather)
    ∧ ((∃ d ∈ m.depotTiles, (findPath m ⟨st.x, st.y⟩ d).isSome) →
        (∀ sp ∈ m.spawnTiles, findPath m ⟨st.x, st.y⟩ sp = none) →
        (handleCompanionPositionMessage true m st position).2
          = [OutMsg.hand2hand H2H.gather]
        ∧ (handleCompanionPositionMessage true m st position).1.hand2HandMode
          = H2H.deliver)
    ∧ ((∃ d ∈ m.depotTiles, (findPath m ⟨st.x, st.y⟩ d).isSome) →
        (∃ sp ∈ m.spawnTiles, (findPath m ⟨st.x, st.y⟩ sp).isSome) →
        (handleCompanionPositionMessage true m st position).2
          = [OutMsg.hand2hand H2H.none]
        ∧ (handleCompanionPositionMessage true m st position).1.hand2HandMode
          = H2H.none) := by
  unfold handleCompanionPositionMessage
  rw [hInit, hLead]
  simp only [Bool.not_false, Bool.and_true, Bool.and_self, if_true]
  cases hdel : checkIfCanDeliver m ⟨st.x, st.y⟩ with
  | none =>
    refine ⟨rfl, fun _ => ⟨rfl, rfl⟩, ?_, ?_⟩
    · intro ⟨d, hd, hpath⟩ _
      unfold checkIfCanDeliver at hdel
      rw [List.find?_eq_none] at hdel
      exact absurd hpath (by simpa using hdel d hd)
    · intro ⟨d, hd, hpath⟩ _
      unfold checkIfCanDeliver at hdel
      rw [List.find?_eq_none] at hdel
      exact absurd hpath (by simpa using hdel d hd)
  | some depot =>
    cases hgat : checkIfCanGather m ⟨st.x, st.y⟩ with
    | none =>
      refine ⟨rfl, ?_, fun _ _ => ⟨rfl, rfl⟩, ?_⟩
      · intro hall
        unfold checkIfCanDeliver at hdel
        have hp := List.find?_some hdel
        have hmem := List.mem_of_find?_eq_some hdel
        rw [hall depot hmem] at hp
        simp at hp
      · intro _ ⟨sp, hsp, hpath⟩
        unfold checkIfCanGather at hgat
        rw [List.find?_eq_none] at hgat
        exact absurd hpath (by simpa using hgat sp hsp)
    | some spawn =>
      refine ⟨rfl, ?_, ?_, fun _ _ => ⟨rfl, by simpa using hMode⟩⟩
      · intro hall
        unfold checkIfCanDeliver at hdel
        have hp := List.find?_some hdel
        have hmem := List.mem_of_find?_eq_some hdel
        rw [hall depot hmem] at hp
        simp at hp
      · intro _ hall
        unfold checkIfCanGather at hgat
        have hp := List.find?_some hgat
        have hmem := List.mem_of_find?_eq_some hgat
        rw [hall spawn hmem] at hp
        simp at hp

/-- Witness for `c6_companion_position_election`: a concrete two-tile
map where the leader at `(0, 0)` can reach both the depot `(0, 1)` and
the spawn `(0, 0)`, so the first companion-position message sends
`hand2hand{behavior: none}`, keeps mode `None`, and initialises the
agent. -/
theorem c6_companion_position_election_witness :
    (handleCompanionPositionMessage true ⟨1, 2, [⟨0, 0⟩, ⟨0, 1⟩], [⟨0, 1⟩], [⟨0, 0⟩]⟩
        ⟨0, 0, true, false, H2H.none⟩ ⟨9, 9⟩).1.initialized = true
    ∧ (handleCompanionPositionMessage true ⟨1, 2, [⟨0, 0⟩, ⟨0, 1⟩], [⟨0, 1⟩], [⟨0, 0⟩]⟩
        ⟨0, 0, true, false, H2H.none⟩ ⟨9, 9⟩).2 = [OutMsg.hand2hand H2H.none]
    ∧ (handleCompanionPositionMessage true ⟨1, 2, [⟨0, 0⟩, ⟨0, 1⟩], [⟨0, 1⟩], [⟨0, 0⟩]⟩
        ⟨0, 0, true, false, H2H.none⟩ ⟨9, 9⟩).1.hand2HandMode = H2H.none := by
  have h := c6_companion_position_election
    ⟨1, 2, [⟨0, 0⟩, ⟨0, 1⟩], [⟨0, 1⟩], [⟨0, 0⟩]⟩
    ⟨0, 0, true, false, H2H.none⟩ ⟨9, 9⟩ rfl rfl rfl (by decide) (by decide)
  obtain ⟨h1, _, _, h4⟩ := h
  have h5 := h4 ⟨⟨0, 1⟩, by decide, by decide⟩ ⟨⟨0, 0⟩, by decide, by decide⟩
  exact ⟨h1, h5.1, h5.2⟩

/-! ## Deliver-mode option generation (C8, C9)

Embedding of `generateOptionDeliverBehavior` and
`findCommonDeliveryTile` (`src/planner/options-generation.js:182-297`),
together with `Agent.push` (`agent.js:397-416`: deduplicate, append,
re-sort).  Two deliberate faithfulness points:

* `let deliveryTileRetryCounter = 0;` (`options-generation.js:187`) is a
  *function-local* variable: it is reset to 0 on every invocation, its
  guard `deliveryTileRetryCounter < Config.MAX_RETRY_COMMON_DELIVERY`
  compares 0 against the limit, and the `deliveryTileRetryCounter++` in
  the failure branch is discarded when the function returns (C8);
* the parcel scan (`options-generation.js:227-232`) reads
  `agent.deliveryTile.x` whenever `canPickUp(parcel)` holds, without a
  null check — a `TypeError` when `deliveryTile` is null (C9). -/

/-- `canPickUp(parcel)` (`options-generation.js:304-306`):
`!parcel.carriedBy && parcel.x != null && parcel.y != null`.  Parcels in
the world map always carry coordinates (built by `setX`/`setY` from the
sensor data), which the `Parcel` structure reflects by making them
non-optional, so the coordinate checks are the constant true here. -/
def canPickUp (p : Parcel) : Bool :=
  p.carriedBy.isNone

/-- Events of one Deliver-mode option generation. -/
inductive DelEvent where
  | searchFailed
  | deliveryTileSet (x y : Int)
deriving DecidableEq, Repr

/-- Fuel for the delivery-tile search; the source recursion terminates
on finite maps because every call extends `TILES_TO_AVOID`, and fuel
exhaustion maps to the `null` result. -/
def commonDeliveryFuel (m : MapSnap) : ℕ :=
  (m.walkable.length + 2) * (m.walkable.length + 2) + 1

/-- `findCommonDeliveryTile(map, agentPosition, tilesToCheck)`
(`options-generation.js:259-297`): dequeue the first candidate; if it is
not in the (module-global) `TILES_TO_AVOID` and reachable from
`agentPosition`, return it; otherwise append it to the avoid list,
enqueue its walkable neighbours not already avoided, and recurse.
Returns the result together with the updated avoid list. -/
def findCommonDeliveryTile (m : MapSnap) (agentPosition : Pos) :
    ℕ → List Pos → List Pos → Option Pos × List Pos
  | 0, _, avoid => (none, avoid)
  | fuel + 1, tilesToCheck, avoid =>
    match tilesToCheck with
    | [] => (none, avoid)
    | deliveryTile :: rest =>
      if !avoid.contains deliveryTile
          && (findPath m agentPosition deliveryTile).isSome then
        (some deliveryTile, avoid)
      else
        let avoid1 := avoid ++ [deliveryTile]
        let neighbors := (getNeighborTiles m deliveryTile).filter
          (fun t => !avoid1.contains t)
        findCommonDeliveryTile m agentPosition fuel (rest ++ neighbors) avoid1

/-- The parcel scan of `generateOptionDeliverBehavior`
(`options-generation.js:227-232`): for each parcel passing `canPickUp`,
compare its position with `agent.deliveryTile` — reading `.x` of a null
`deliveryTile` is a `TypeError`, i.e. the generator faults. -/
def deliverParcelScan : List Parcel → Option Pos → Except Unit (List IntentionPred)
  | [], _ => .ok []
  | p :: ps, dt =>
    if canPickUp p then
      match dt with
      | none => .error ()
      | some t =>
        match deliverParcelScan ps dt with
        | .error e => .error e
        | .ok rest =>
          if p.x = t.x ∧ p.y = t.y then
            .ok (IntentionPred.pickUp p.x p.y p.id :: rest)
          else
            .ok rest
    else
      deliverParcelScan ps dt

/-- The agent-state fields `generateOptionDeliverBehavior` reads and
writes (Deliver mode: `depot` is set). -/
structure DeliverSt where
  pos : Pos
  carryingParcel : Bool
  carriedParcel : ℕ
  depot : Pos
  deliveryTile : Option Pos
  parcelsToIgnore : List String
  queue : List IntentionPred
deriving DecidableEq, Repr

/-- `Agent.push(predicate)` (`agent.js:397-416`): skip when an
element-wise identical predicate is queued, otherwise append and
re-sort. -/
def agentPush (m : MapSnap) (agentPosition : Pos)
    (MAX_CARRIED_PARCELS carriedParcel : ℕ)
    (q : List IntentionPred) (p : IntentionPred) : List IntentionPred :=
  if p ∈ q then q
  else sortIntentionQueue m agentPosition MAX_CARRIED_PARCELS carriedParcel (q ++ [p])

/-- The ignore-filtered option push of `options-generation.js:239-246`:
pickups whose parcel id is in `parcelsToIgnore` are skipped; every other
option goes through `agent.push`. -/
def pushOption (m : MapSnap) (maxCarried : ℕ) (st : DeliverSt)
    (q : List IntentionPred) (o : IntentionPred) : List IntentionPred :=
  match o with
  | IntentionPred.pickUp _ _ pid =>
    if st.parcelsToIgnore.contains pid then q
    else agentPush m st.pos maxCarried st.carriedParcel q o
  | _ => agentPush m st.pos maxCarried st.carriedParcel q o

/-- `generateOptionDeliverBehavior` (`options-generation.js:182-250`):
go to the depot when empty-handed and away from it; negotiate the
common delivery tile while it is unset (guarded by the function-local
retry counter, see the section comment); scan the parcels on the
delivery tile (faulting if it is still null and a pickable parcel
exists); add the drop-off when carrying; push everything through the
ignore filter and re-sort.  Returns the new agent state, the updated
global `TILES_TO_AVOID`, and the events. -/
def generateOptionDeliverBehavior (maxRetry maxCarried : ℕ) (m : MapSnap)
    (parcels : List Parcel) (st : DeliverSt) (tilesToAvoid : List Pos) :
    Except Unit (DeliverSt × List Pos × List DelEvent) :=
  let options0 : List IntentionPred :=
    if st.carryingParcel = false ∧ st.pos ≠ st.depot then
      [IntentionPred.goTo st.depot.x st.depot.y]
    else []
  let deliveryTileRetryCounter : ℕ := 0
  let negotiation : Option Pos × List Pos × List DelEvent :=
    if st.deliveryTile = none ∧ deliveryTileRetryCounter < maxRetry then
      let res := findCommonDeliveryTile m st.depot (commonDeliveryFuel m)
        (getNeighborTiles m st.depot) (tilesToAvoid ++ [st.depot])
      match res.1 with
      | some t => (some t, res.2, [DelEvent.deliveryTileSet t.x t.y])
      | none => (none, res.2, [DelEvent.searchFailed])
    else (st.deliveryTile, tilesToAvoid, [])
  match deliverParcelScan parcels negotiation.1 with
  | .error e => .error e
  | .ok pickOptions =>
    let options : List IntentionPred := options0 ++ pickOptions ++
      (if st.carryingParcel then [IntentionPred.dropOff st.depot.x st.depot.y] else [])
    let queue1 := options.foldl (pushOption m maxCarried st) st.queue
    let queue2 := sortIntentionQueue m st.pos maxCarried st.carriedParcel queue1
    .ok ({ st with deliveryTile := negotiation.1, queue := queue2 },
      negotiation.2.1, negotiation.2.2)

/-- A sequence of `n` successive Deliver-mode option generations (the
periodic `OPTION_GENERATION_INTERVAL` trigger), threading the agent
state and the global `TILES_TO_AVOID` and concatenating events. -/
def deliverRun (maxRetry maxCarried : ℕ) (m : MapSnap) (parcels : List Parcel) :
    ℕ → DeliverSt → List Pos → Except Unit (DeliverSt × List Pos × List DelEvent)
  | 0, st, avoid => .ok (st, avoid, [])
  | n + 1, st, avoid =>
    match generateOptionDeliverBehavior maxRetry maxCarried m parcels st avoid with
    | .error e => .error e
    | .ok (st1, avoid1, evs1) =>
      match deliverRun maxRetry maxCarried m parcels n st1 avoid1 with
      | .error e => .error e
      | .ok (st2, avoid2, evs2) => .ok (st2, avoid2, evs1 ++ evs2)

/-- Single-tile map whose depot has no walkable neighbours: every
delivery-tile search fails immediately. -/
def m8 : MapSnap := ⟨1, 1, [⟨0, 0⟩], [⟨0, 0⟩], []⟩

/-- Deliver-mode agent sitting on the depot of `m8`, delivery tile
still unset, nothing carried, empty queue. -/
def st8 : DeliverSt := ⟨⟨0, 0⟩, false, 0, ⟨0, 0⟩, none, [], []⟩

/-- Two-tile map where the depot `(0,0)` has the walkable neighbour
`(0,1)`: the first delivery-tile search succeeds. -/
def m8b : MapSnap := ⟨1, 2, [⟨0, 0⟩, ⟨0, 1⟩], [⟨0, 0⟩], []⟩

/-- C8: the retry bound is NOT enforced across option generations.  With
`MAX_RETRY_COMMON_DELIVERY = 10`, eleven successive Deliver-mode option
generations on `m8` (search always fails) perform eleven failed
delivery-tile searches — more than the claimed bound — and leave the
agent state unchanged (`deliveryTile` still unset, so the next
generation searches again): the counter `deliveryTileRetryCounter` is a
local variable of `generateOptionDeliverBehavior`, reset to 0 on every
call, so its increment in the failure branch is lost.  The success part
of the claim does hold: on `m8b` the first generation records the found
tile `(0,1)` and emits the `delivery_tile{status:set}` message. -/
theorem c8_retry_counter_not_persistent :
    deliverRun 10 4 m8 [] 11 st8 [] =
      .ok (st8, List.replicate 11 (⟨0, 0⟩ : Pos),
        List.replicate 11 DelEvent.searchFailed) ∧
    10 < (List.replicate 11 DelEvent.searchFailed).length ∧
    generateOptionDeliverBehavior 10 4 m8b [] st8 [] =
      .ok ({ st8 with deliveryTile := some ⟨0, 1⟩ }, [⟨0, 0⟩],
        [DelEvent.deliveryTileSet 0 1]) := by
  refine ⟨rfl, by decide, rfl⟩

/-- When the delivery tile is `null`, the first pickable parcel makes
the scan read `.x` of `null` and fault. -/
theorem deliverParcelScan_error {parcels : List Parcel}
    (hne : parcels ≠ []) (hpick : ∀ p ∈ parcels, canPickUp p = true) :
    deliverParcelScan parcels none = .error () := by
  cases parcels with
  | nil => exact absurd rfl hne
  | cons p ps =>
    have hp : canPickUp p = true := hpick p (List.mem_cons_self _ _)
    simp [deliverParcelScan, hp]

/-- C9: `generateOptionDeliverBehavior` is total only when
`agent.deliveryTile` is non-null by the time the parcel scan runs.  If
the tile is unset, the negotiation's search fails (or is skipped because
`MAX_RETRY_COMMON_DELIVERY = 0`), and the sensed parcel list is
non-empty with every parcel pickable, the scan dereferences the null
`deliveryTile` and the generator faults instead of producing options. -/
theorem c9_deliver_scan_null_deref
    (maxRetry maxCarried : ℕ) (m : MapSnap) (parcels : List Parcel)
    (st : DeliverSt) (tilesToAvoid : List Pos)
    (hdt : st.deliveryTile = none)
    (hsearch : (findCommonDeliveryTile m st.depot (commonDeliveryFuel m)
      (getNeighborTiles m st.depot) (tilesToAvoid ++ [st.depot])).1 = none)
    (hne : parcels ≠ [])
    (hpick : ∀ p ∈ parcels, canPickUp p = true) :
    generateOptionDeliverBehavior maxRetry maxCarried m parcels st tilesToAvoid
      = .error () := by
  have hscan := deliverParcelScan_error hne hpick
  by_cases hmr : 0 < maxRetry
  · simp only [generateOptionDeliverBehavior, hdt, hmr, and_self, if_true, hsearch,
      hscan]
  · simp only [generateOptionDeliverBehavior, hdt, hmr, and_false, if_false, hscan,
    true_and]

/-- Concrete fault: on `m8` the search fails, the single sensed parcel
is pickable, and the generator errors. -/
theorem c9_deliver_scan_null_deref_witness :
    generateOptionDeliverBehavior 10 4 m8 [⟨"q", 0, 0, 3, 0, none⟩] st8 []
      = .error () :=
  c9_deliver_scan_null_deref 10 4 m8 [⟨"q", 0, 0, 3, 0, none⟩] st8 []
    rfl rfl (by decide) (by decide)

/-! ## Single-agent execution (C10)

Transition system over the `Agent` fields the claim touches.  The
constructor (`agent.js:334-341`) registers the three message handlers
with `onMsg` only when `Config.DUAL_AGENT` is set, so with
`dualAgent = false` a received message reaches no handler at all; the
loop (`agent.js:358-390`) shifts an intention off the queue only when
the queue is non-empty AND `#initialized` is true; `#initialized`
starts false (`agent.js:260`) and is assigned true only inside
`#handleHand2HandMessage` (`agent.js:588,595,600`) and
`#handleCompanionPositionMessage` (`agent.js:712`).  The third
registered handler, `#handleParcelsToIgnoreMessage`, only edits
`#parcelsToIgnore` and is omitted. -/

/-- Messages the companion could send. -/
inductive SMsg where
  | hand2hand (behavior : String)
  | companionPosition (x y : Int)
  | other
deriving DecidableEq, Repr

/-- The `Agent` fields relevant to the loop/initialization claim;
`achieved` logs the intentions the loop has shifted and achieved. -/
structure SAgent where
  x : Int
  y : Int
  isLeader : Bool
  carryingParcel : Bool
  carriedParcel : ℕ
  initialized : Bool
  hand2HandMode : H2H
  queue : List IntentionPred
  achieved : List IntentionPred
deriving DecidableEq, Repr

/-- `Agent.#handleHand2HandMessage` (`agent.js:562-612`): ignored when
already initialised; `deliver` requires a reachable depot (throws
otherwise) and sets Deliver mode; `gather` with a reachable spawn sets
Gather mode; `none` leaves the default behaviour; anything else throws.
Every non-throwing `hand2hand` branch sets `initialized`. -/
def sHandleHand2Hand (m : MapSnap) (st : SAgent) : SMsg → Except Unit SAgent
  | SMsg.hand2hand behavior =>
    if st.initialized then .ok st
    else if behavior = "deliver" then
      match checkIfCanDeliver m ⟨st.x, st.y⟩ with
      | none => .error ()
      | some _ =>
        .ok { st with hand2HandMode := H2H.deliver, initialized := true }
    else if behavior = "gather" ∧ (checkIfCanGather m ⟨st.x, st.y⟩).isSome then
      .ok { st with hand2HandMode := H2H.gather, initialized := true }
    else if behavior = "none" then
      .ok { st with initialized := true }
    else .error ()
  | _ => .ok st

/-- `Agent.#handleCompanionPositionMessage` (`agent.js:669-717`) on the
`SAgent` state: role election exactly as in
`handleCompanionPositionMessage`, guarded by
`Config.DUAL_AGENT && !initialized && isLeader`. -/
def sHandleCompanionPosition (dualAgent : Bool) (m : MapSnap) (st : SAgent) :
    SMsg → SAgent × List OutMsg
  | SMsg.companionPosition _ _ =>
    if dualAgent && !st.initialized && st.isLeader then
      match checkIfCanDeliver m ⟨st.x, st.y⟩ with
      | none =>
        ({ st with hand2HandMode := H2H.gather, initialized := true },
          [OutMsg.hand2hand H2H.deliver])
      | some _ =>
        match checkIfCanGather m ⟨st.x, st.y⟩ with
        | none =>
          ({ st with hand2HandMode := H2H.deliver, initialized := true },
            [OutMsg.hand2hand H2H.gather])
        | some _ => ({ st with initialized := true }, [OutMsg.hand2hand H2H.none])
    else (st, [])
  | _ => (st, [])

/-- External events driving the agent: position sensing, parcel
sensing, an option push from the generator, a received message, one
loop iteration. -/
inductive SEvent where
  | onYou (x y : Int)
  | onParcelsSensing (carrying : Bool)
  | push (p : IntentionPred)
  | msg (m : SMsg)
  | loopTick
deriving DecidableEq, Repr

/-- One event step.  A message is dispatched to the handlers (in their
registration order, `agent.js:336-340`) only when `dualAgent` is true —
otherwise `onMsg` was never called and the message is dropped.  A loop
tick shifts and achieves the head intention only when the queue is
non-empty and `initialized` holds (`agent.js:363-367`), else the loop
just waits. -/
def singleAgentStep (dualAgent : Bool) (m : MapSnap) (maxCarried : ℕ)
    (st : SAgent) : SEvent → Except Unit SAgent
  | SEvent.onYou x y => .ok { st with x := x, y := y }
  | SEvent.onParcelsSensing carrying => .ok { st with carryingParcel := carrying }
  | SEvent.push p =>
    .ok { st with
      queue := agentPush m ⟨st.x, st.y⟩ maxCarried st.carriedParcel st.queue p }
  | SEvent.msg msg =>
    if dualAgent then
      match sHandleHand2Hand m st msg with
      | .error e => .error e
      | .ok st1 => .ok (sHandleCompanionPosition dualAgent m st1 msg).1
    else .ok st
  | SEvent.loopTick =>
    if 0 < st.queue.length ∧ st.initialized = true then
      match st.queue with
      | [] => .ok st
      | i :: rest => .ok { st with queue := rest, achieved := st.achieved ++ [i] }
    else .ok st

/-- A whole execution: fold the event stream through the step. -/
def singleAgentRun (dualAgent : Bool) (m : MapSnap) (maxCarried : ℕ) :
    SAgent → List SEvent → Except Unit SAgent
  | st, [] => .ok st
  | st, e :: evs =>
    match singleAgentStep dualAgent m maxCarried st e with
    | .error err => .error err
    | .ok st1 => singleAgentRun dualAgent m maxCarried st1 evs

/-- The freshly constructed agent: `#initialized = false`
(`agent.js:260`), empty queue, nothing achieved. -/
def initSAgent (x y : Int) (isLeader : Bool) : SAgent :=
  ⟨x, y, isLeader, false, 0, false, H2H.none, [], []⟩

/-- One single-agent step keeps `initialized` false and achieves
nothing. -/
theorem singleAgentStep_preserve {m : MapSnap} {maxCarried : ℕ}
    {st st' : SAgent} {e : SEvent}
    (hinit : st.initialized = false) (hach : st.achieved = [])
    (h : singleAgentStep false m maxCarried st e = .ok st') :
    st'.initialized = false ∧ st'.achieved = [] := by
  cases e with
  | onYou x y =>
    simp only [singleAgentStep, Except.ok.injEq] at h
    subst h; exact ⟨hinit, hach⟩
  | onParcelsSensing carrying =>
    simp only [singleAgentStep, Except.ok.injEq] at h
    subst h; exact ⟨hinit, hach⟩
  | push p =>
    simp only [singleAgentStep, Except.ok.injEq] at h
    subst h; exact ⟨hinit, hach⟩
  | msg msg =>
    simp only [singleAgentStep, Bool.false_eq_true, if_false,
      Except.ok.injEq] at h
    subst h; exact ⟨hinit, hach⟩
  | loopTick =>
    simp only [singleAgentStep, hinit, Bool.false_eq_true, and_false,
      if_false, Except.ok.injEq] at h
    subst h; exact ⟨hinit, hach⟩

/-- C10: in a single-agent run (`DUAL_AGENT = false`) the message
handlers are never registered, so `initialized` can never become true,
so the loop never shifts an intention off the queue: whatever events
occur — sensing, messages from a would-be companion, any pushes the
option generator performs — the final state still has
`initialized = false` and an empty achieved log. -/
theorem c10_single_agent_never_achieves (m : MapSnap) (maxCarried : ℕ)
    (evs : List SEvent) (x y : Int) (isLeader : Bool) (st' : SAgent)
    (h : singleAgentRun false m maxCarried (initSAgent x y isLeader) evs
      = .ok st') :
    st'.initialized = false ∧ st'.achieved = [] := by
  have main : ∀ (evs : List SEvent) (st st' : SAgent),
      st.initialized = false → st.achieved = [] →
      singleAgentRun false m maxCarried st evs = .ok st' →
      st'.initialized = false ∧ st'.achieved = [] := by
    intro evs
    induction evs with
    | nil =>
      intro st st' hinit hach h
      simp only [singleAgentRun, Except.ok.injEq] at h
      subst h; exact ⟨hinit, hach⟩
    | cons e evs ih =>
      intro st st' hinit hach h
      simp only [singleAgentRun] at h
      cases hstep : singleAgentStep false m maxCarried st e with
      | error err => rw [hstep] at h; cases h
      | ok st1 =>
        rw [hstep] at h
        obtain ⟨h1, h2⟩ := singleAgentStep_preserve hinit hach hstep
        exact ih st1 st' h1 h2 h
  exact main evs (initSAgent x y isLeader) st' rfl rfl h

/-- Concrete single-agent run on the two-tile map: the generator pushes
a pickup, the companion-style messages arrive, loop ticks pass — yet
the queue still holds the pickup, nothing was achieved, and the agent
is still uninitialised. -/
theorem c10_single_agent_never_achieves_witness :
    singleAgentRun false m8b 4 (initSAgent 0 0 true)
      [SEvent.push (IntentionPred.pickUp 0 1 "P"), SEvent.loopTick,
        SEvent.msg (SMsg.companionPosition 0 1),
        SEvent.msg (SMsg.hand2hand "none"), SEvent.loopTick]
      = .ok ⟨0, 0, true, false, 0, false, H2H.none,
          [IntentionPred.pickUp 0 1 "P"], []⟩ ∧
    (⟨0, 0, true, false, 0, false, H2H.none,
        [IntentionPred.pickUp 0 1 "P"], []⟩ : SAgent).initialized = false ∧
    (⟨0, 0, true, false, 0, false, H2H.none,
        [IntentionPred.pickUp 0 1 "P"], []⟩ : SAgent).achieved = [] :=
  ⟨rfl, c10_single_agent_never_achieves m8b 4
    [SEvent.push (IntentionPred.pickUp 0 1 "P"), SEvent.loopTick,
      SEvent.msg (SMsg.companionPosition 0 1),
      SEvent.msg (SMsg.hand2hand "none"), SEvent.loopTick] 0 0 true
    ⟨0, 0, true, false, 0, false, H2H.none,
      [IntentionPred.pickUp 0 1 "P"], []⟩ rfl⟩
